import Mathlib

/-!
# Verification of the pdf-a11y-crawler crawl-and-analyze pipeline

This file is a shallow embedding, in Lean 4, of `pdf-a11y-crawl.py`:
the URL normalizer and classifier, the fetcher, the streaming downloader,
the three external-tool wrappers, and the crawl orchestrator.

Python strings are modelled as `List Char` (the type `Str` below).
External collaborators (the network, the HTML-to-links parser, and the
three analysis subprocesses) are modelled as oracles packed in a `World`
structure: the embedding quantifies over every possible behaviour of the
collaborators, exactly as the specification treats them as opaque.

The functions `urlsplitE`, `urlparseE`, `urljoinE`, `urldefragE` are
translated from CPython's `urllib.parse` (version 3.11), which is the
code that `normalize_url` and `same_origin` in the source delegate to.
Restrictions of the translation, stated where they occur: bracketed-host
content validation (`_check_bracketed_host`) and the non-ASCII netloc
check (`_checknetloc`) are omitted — the raising mismatched-bracket check
is kept; inputs are assumed free of C0 control characters (the
WHATWG strip steps are identity on such inputs and are omitted).
-/

/-- Python `str`, modelled as a list of characters. -/
abbrev Str := List Char

/-- Coerce a Lean string literal into the model's string type. -/
def str (s : String) : Str := s.data

/-- Python `c.lower()` for a single character (ASCII range, which is all
the source's token comparisons use). -/
def pyLower (c : Char) : Char :=
  if 'A' ≤ c ∧ c ≤ 'Z' then Char.ofNat (c.toNat + 32) else c

/-- Python `s.lower()`. -/
def lowerStr (s : Str) : Str := s.map pyLower

/-- Python whitespace test, for `str.strip()`. -/
def pySpace (c : Char) : Bool :=
  c = ' ' ∨ c = '\t' ∨ c = '\n' ∨ c = '\r' ∨ c = '\x0b' ∨ c = '\x0c'

/-- Python `s.strip()` (default whitespace). -/
def stripPy (s : Str) : Str :=
  (s.dropWhile pySpace).reverse.dropWhile pySpace |>.reverse

/-- Python `sub in s` (substring containment). -/
def containsStr : Str → Str → Bool
  | [], sub => sub.isPrefixOf ([] : Str)
  | s@(_ :: t), sub => sub.isPrefixOf s || containsStr t sub

/-- Python `s.startswith(p)`. -/
def startsWithStr (s p : Str) : Bool := p.isPrefixOf s

/-- Worker for `splitLinesPy`: accumulates the current line reversed. -/
def splitLinesGo : Str → Str → List Str
  | [], acc => [acc.reverse]
  | '\n' :: rest, acc =>
    if rest = [] then [acc.reverse] else acc.reverse :: splitLinesGo rest []
  | c :: rest, acc => splitLinesGo rest (c :: acc)

/-- Python `s.splitlines()` restricted to `'\n'` separators (the only
line separator produced by the subprocess text captures modelled here). -/
def splitLinesPy (s : Str) : List Str :=
  if s = [] then [] else splitLinesGo s []

/-- Decimal digits of a natural number, as Python `str(n)`. -/
def natStr (n : Nat) : Str := Nat.toDigits 10 n

/-- Python `str(i)` for a (possibly negative) integer. -/
def intStr (i : Int) : Str :=
  if i < 0 then '-' :: natStr i.natAbs else natStr i.natAbs

/-- Split a list at the first occurrence of `c`:
`some (before, after)` with `c ∉ before`, or `none` when `c` is absent.
Models Python `s.split(c, 1)` / `s.find(c)`. -/
def splitFirst (c : Char) : Str → Option (Str × Str)
  | [] => none
  | x :: xs =>
    if x = c then some ([], xs)
    else match splitFirst c xs with
      | none => none
      | some (a, b) => some (x :: a, b)

/-- Split a list at the last occurrence of `c`:
`some (before, after)` with `c ∉ after`. Models Python `s.rfind(c)`. -/
def splitLast (c : Char) (s : Str) : Option (Str × Str) :=
  match splitFirst c s.reverse with
  | none => none
  | some (a, b) => some (b.reverse, a.reverse)

/-- Python `s.split(sep)` for a single-character separator (keeps empty
pieces, always returns at least one piece). -/
def splitOn (c : Char) : Str → List Str
  | [] => [[]]
  | x :: xs =>
    if x = c then [] :: splitOn c xs
    else
      match splitOn c xs with
      | [] => [[x]]
      | p :: ps => (x :: p) :: ps

/-- Python `sep.join(parts)` for a single-character separator. -/
def joinOn (c : Char) : List Str → Str
  | [] => []
  | [x] => x
  | x :: y :: xs => x ++ c :: joinOn c (y :: xs)

/-! ## URL parsing and resolution, translated from CPython `urllib.parse` -/

/-- `urllib.parse.scheme_chars`. -/
def schemeChars : Str :=
  str "abcdefghijklmnopqrstuvwxyzABCDEFGHIJKLMNOPQRSTUVWXYZ0123456789+-."

/-- `urllib.parse.uses_relative`. -/
def usesRelative : List Str :=
  [[], str "ftp", str "http", str "gopher", str "nntp", str "imap",
   str "wais", str "file", str "https", str "shttp", str "mms",
   str "prospero", str "rtsp", str "rtsps", str "rtspu", str "sftp",
   str "svn", str "svn+ssh", str "ws", str "wss"]

/-- `urllib.parse.uses_netloc`. -/
def usesNetloc : List Str :=
  [[], str "ftp", str "http", str "gopher", str "nntp", str "telnet",
   str "imap", str "wais", str "file", str "mms", str "https", str "shttp",
   str "snews", str "prospero", str "rtsp", str "rtsps", str "rtspu",
   str "rsync", str "svn", str "svn+ssh", str "sftp", str "nfs",
   str "git", str "git+ssh", str "ws", str "wss"]

/-- Python `c.isascii() and c.isalpha()`. -/
def isAsciiAlpha (c : Char) : Bool :=
  ('a' ≤ c && c ≤ 'z') || ('A' ≤ c && c ≤ 'Z')

/-- The scheme-detection step of `urlsplit`: a leading `<scheme>:` is
recognised when the part before the first colon is nonempty, starts with
an ASCII letter, and consists of `scheme_chars` only; the detected scheme
is lower-cased. -/
def schemeSplit (url : Str) : Option (Str × Str) :=
  match splitFirst ':' url with
  | none => none
  | some (before, after) =>
    match before with
    | [] => none
    | c0 :: _ =>
      if isAsciiAlpha c0 && before.all (fun c => decide (c ∈ schemeChars)) then
        some (lowerStr before, after)
      else none

/-- `urllib.parse._splitnetloc`: the netloc runs to the first of
`/`, `?`, `#`. -/
def splitNetloc (s : Str) : Str × Str :=
  (s.takeWhile (fun c => !(c = '/' || c = '?' || c = '#')),
   s.dropWhile (fun c => !(c = '/' || c = '?' || c = '#')))

/-- Result of `urlsplit`. -/
structure SplitRes where
  scheme : Str
  netloc : Str
  path : Str
  query : Str
  fragment : Str
deriving DecidableEq, Repr

/-- `if '#' in url: url, fragment = url.split('#', 1)`. -/
def splitFragment (rest : Str) : Str × Str :=
  match splitFirst '#' rest with
  | some (a, b) => (a, b)
  | none => (rest, [])

/-- `if '?' in url: url, query = url.split('?', 1)`. -/
def splitQuery (s : Str) : Str × Str :=
  match splitFirst '?' s with
  | some (a, b) => (a, b)
  | none => (s, [])

/-- The fragment and query splitting tail of `urlsplit`. -/
def urlsplitRest (scheme netloc rest : Str) : SplitRes :=
  ⟨scheme, netloc, (splitQuery (splitFragment rest).1).1,
   (splitQuery (splitFragment rest).1).2, (splitFragment rest).2⟩

/-- The scheme variable of `urlsplit`: the detected scheme, or the
default when detection fails, paired with what remains of the URL. -/
def schemeOrDefault (url dflt : Str) : Str × Str :=
  match schemeSplit url with
  | some (s, r) => (s, r)
  | none => (dflt, url)

/-- `urllib.parse.urlsplit url default` with `allow_fragments=True`.
Raises (as `.error`) on a netloc with mismatched square brackets, exactly
as CPython does; the content validation of a matched bracketed host and
the non-ASCII netloc check are not modelled (no modelled input uses
them), and inputs are assumed free of C0 control characters. -/
def urlsplitE (url : Str) (dflt : Str) : Except Str SplitRes :=
  let sr := schemeOrDefault url dflt
  if sr.2.take 2 = str "//" then
    let nr := splitNetloc (sr.2.drop 2)
    if ('[' ∈ nr.1 ∧ ']' ∉ nr.1) ∨ (']' ∈ nr.1 ∧ '[' ∉ nr.1) then
      .error (str "Invalid IPv6 URL")
    else .ok (urlsplitRest sr.1 nr.1 nr.2)
  else .ok (urlsplitRest sr.1 [] sr.2)

/-- Result of `urlparse`. -/
structure ParseRes where
  scheme : Str
  netloc : Str
  path : Str
  params : Str
  query : Str
  fragment : Str
deriving DecidableEq, Repr

/-- `urllib.parse._splitparams`. -/
def splitparams (p : Str) : Str × Str :=
  match splitLast '/' p with
  | some (pre, post) =>
    match splitFirst ';' post with
    | some (a, b) => (pre ++ '/' :: a, b)
    | none => (p, [])
  | none =>
    match splitFirst ';' p with
    | some (a, b) => (a, b)
    | none => (p, [])

/-- `urllib.parse.urlparse url default` with `allow_fragments=True`. -/
def urlparseE (url : Str) (dflt : Str) : Except Str ParseRes :=
  match urlsplitE url dflt with
  | .error e => .error e
  | .ok r =>
    let pp := if ';' ∈ r.path then splitparams r.path else (r.path, [])
    .ok ⟨r.scheme, r.netloc, pp.1, pp.2, r.query, r.fragment⟩

/-- `urllib.parse.urlunsplit`. -/
def urlunsplit (scheme netloc path query fragment : Str) : Str :=
  let url := path
  let url :=
    if netloc ≠ [] ∨ (scheme ≠ [] ∧ scheme ∈ usesNetloc ∧ url.take 2 ≠ str "//") then
      let url := if url ≠ [] ∧ url.take 1 ≠ str "/" then '/' :: url else url
      str "//" ++ netloc ++ url
    else url
  let url := if scheme ≠ [] then scheme ++ ':' :: url else url
  let url := if query ≠ [] then url ++ '?' :: query else url
  if fragment ≠ [] then url ++ '#' :: fragment else url

/-- `urllib.parse.urlunparse`. -/
def urlunparse (r : ParseRes) : Str :=
  let path := if r.params ≠ [] then r.path ++ ';' :: r.params else r.path
  urlunsplit r.scheme r.netloc path r.query r.fragment

/-- One step of the `..` / `.` resolution loop of `urljoin`. -/
def resolveStep (acc : List Str) (seg : Str) : List Str :=
  if seg = str ".." then acc.dropLast
  else if seg = str "." then acc
  else acc ++ [seg]

/-- Worker for `filterMiddle`. -/
def filterMidGo : List Str → List Str
  | [] => []
  | [x] => [x]
  | x :: y :: xs =>
    if x = [] then filterMidGo (y :: xs) else x :: filterMidGo (y :: xs)

/-- `segments[1:-1] = filter(None, segments[1:-1])`: drop empty segments,
keeping the first and last elements. -/
def filterMiddle : List Str → List Str
  | [] => []
  | x :: xs => x :: filterMidGo xs

/-- The relative-path merge of `urljoin` (its `base_parts` /
`segments` / `resolved_path` block). -/
def joinMergedPath (bpath upath : Str) : Str :=
  let baseParts := splitOn '/' bpath
  let baseParts :=
    if baseParts.getLast? ≠ some [] then baseParts.dropLast else baseParts
  let segments :=
    if upath.take 1 = str "/" then splitOn '/' upath
    else filterMiddle (baseParts ++ splitOn '/' upath)
  let resolved := segments.foldl resolveStep []
  let resolved :=
    if segments.getLast? = some (str ".") ∨ segments.getLast? = some (str "..") then
      resolved ++ [[]]
    else resolved
  let rp := joinOn '/' resolved
  if rp = [] then str "/" else rp

/-- Body of `urljoin` once the base has been parsed as `b`: parse the
url with the base scheme as default, then the branch ladder of the
original. The `netloc` local of the original is inlined in both
branches that use it. -/
def urljoinWith (b : ParseRes) (url : Str) : Except Str Str :=
  match urlparseE url b.scheme with
  | .error e => .error e
  | .ok u =>
    if u.scheme ≠ b.scheme ∨ u.scheme ∉ usesRelative then .ok url
    else if u.scheme ∈ usesNetloc ∧ u.netloc ≠ [] then .ok (urlunparse u)
    else if u.path = [] ∧ u.params = [] then
      .ok (urlunparse ⟨u.scheme,
        (if u.scheme ∈ usesNetloc then b.netloc else u.netloc),
        b.path, b.params,
        (if u.query = [] then b.query else u.query), u.fragment⟩)
    else
      .ok (urlunparse ⟨u.scheme,
        (if u.scheme ∈ usesNetloc then b.netloc else u.netloc),
        joinMergedPath b.path u.path, u.params, u.query, u.fragment⟩)

/-- `urllib.parse.urljoin`, raising (as `.error`) where CPython raises. -/
def urljoinE (base url : Str) : Except Str Str :=
  if base = [] then .ok url
  else if url = [] then .ok base
  else
    match urlparseE base [] with
    | .error e => .error e
    | .ok b => urljoinWith b url

/-- `urllib.parse.urldefrag` (the defragmented component only, which is
all `normalize_url` uses). -/
def urldefragE (url : Str) : Except Str Str :=
  if '#' ∈ url then
    match urlparseE url [] with
    | .error e => .error e
    | .ok p => .ok (urlunparse ⟨p.scheme, p.netloc, p.path, p.params, p.query, []⟩)
  else .ok url

/-- `normalize_url(base, href)` from the source: `None` for a falsy
`href`, otherwise `urljoin` then `urldefrag`. A `ValueError` raised by
the stdlib escapes `normalize_url`; it is the `.error` case here. -/
def normalize_url (base href : Str) : Except Str (Option Str) :=
  if href = [] then .ok none
  else
    match urljoinE base href with
    | .error e => .error e
    | .ok u =>
      match urldefragE u with
      | .error e => .error e
      | .ok d => .ok (some d)

/-- `same_origin(a, b)` from the source: equality of `(scheme, netloc)`
after `urlparse`; a parse `ValueError` escapes. -/
def same_originE (a b : Str) : Except Str Bool :=
  match urlparseE a [] with
  | .error e => .error e
  | .ok pa =>
    match urlparseE b [] with
    | .error e => .error e
    | .ok pb => .ok (decide (pa.scheme = pb.scheme ∧ pa.netloc = pb.netloc))

/-! ## PDF classifier and filenames -/

/-- The `(\?|#|$)` boundary of `PDF_RE`. -/
def pdfBoundary : Str → Bool
  | [] => true
  | c :: _ => c = '?' || c = '#'

/-- Does the string start with a case-insensitive `.pdf` followed by a
`PDF_RE` boundary? -/
def pdfAt : Str → Bool
  | '.' :: c1 :: c2 :: c3 :: rest =>
    pyLower c1 = 'p' && pyLower c2 = 'd' && pyLower c3 = 'f' && pdfBoundary rest
  | _ => false

/-- `is_probably_pdf(url)`: `PDF_RE.search` over every position. -/
def is_probably_pdf : Str → Bool
  | [] => false
  | s@(_ :: t) => pdfAt s || is_probably_pdf t

/-- Lowercase hex digit. -/
def hexDigit (n : Nat) : Char := (str "0123456789abcdef").getD n '0'

/-- Models `hashlib.sha256(...).hexdigest()`: a deterministic digest of
exactly the bytes fed in, in order, rendered as 64 lowercase hex
characters. The claims under verification depend on when a digest is
produced and on its 64-hex shape, never on the value of the SHA-256
compression function, so the mixing step is a simple modular fold rather
than real SHA-256. -/
def sha256hexModel (bytes : List Nat) : Str :=
  let acc := bytes.foldl
    (fun a b => (a * 309485009821345068724781371 + b % 256 + 1) % 2 ^ 256)
    14695981039346656037
  (List.range 64).map (fun i => hexDigit (acc / 16 ^ (63 - i) % 16))

/-- `url.encode("utf-8")`; coincides with code points for the ASCII URLs
considered (multi-byte encoding not modelled). -/
def utf8Bytes (s : Str) : List Nat := s.map Char.toNat

/-- `safe_filename_from_url(url)`. -/
def safe_filename_from_url (url : Str) : Str :=
  (sha256hexModel (utf8Bytes url)).take 16 ++ str ".pdf"

/-- The character class of `re.fullmatch(r"[0-9a-f]{64}", s)`. -/
def isHexLower (c : Char) : Bool :=
  ('0' ≤ c && c ≤ '9') || ('a' ≤ c && c ≤ 'f')

/-- `re.fullmatch(r"[0-9a-f]{64}", s)` as a Boolean. -/
def isHex64 (s : Str) : Bool := s.length == 64 && s.all isHexLower

/-! ## Subprocess, network and file-system models

Every external call is a blocking call whose behaviour (including
timeouts) the environment decides; the `World` oracle fixes one
behaviour per input, and all universally quantified theorems hold for
every oracle. -/

/-- Outcome of one `subprocess.run` invocation: normal completion with a
return code and captured output, a `TimeoutExpired`, or another raised
exception. -/
inductive Subp where
  | done (rc : Int) (out err : Str)
  | timeout
  | exc (msg : Str)
deriving DecidableEq, Repr

/-- `run_pdffonts(pdf_path)` (source lines 68-102). Returns
`(has_text_layer, fonts_count, error_note)`. -/
def run_pdffonts (which : Bool) (run : Subp) :
    Option Bool × Option Nat × Option Str :=
  if !which then
    (none, none, some (str "pdffonts not installed (poppler-utils missing)"))
  else match run with
    | .done rc out err =>
      if rc ≠ 0 then
        (none, none, some (str "pdffonts failed: " ++ (stripPy err).take 200))
      else
        let lines := (splitLinesPy out).filter (fun ln => stripPy ln ≠ [])
        let fontRows := lines.filter (fun ln =>
          !(startsWithStr (lowerStr ln) (str "name")) &&
          !(startsWithStr ln (str "---")))
        (some (decide (fontRows.length > 0)), some fontRows.length, none)
    | .timeout => (none, none, some (str "pdffonts timed out"))
    | .exc e => (none, none, some (str "pdffonts exception: " ++ e))

/-- `run_pdftotext(pdf_path, out_txt)` (source lines 105-120); the
`TimeoutExpired` message text (`str(e)`) is not observed by any claim, a
fixed placeholder stands for it. -/
def run_pdftotext (which : Bool) (run : Subp) : Bool × Option Str :=
  if !which then (false, some (str "pdftotext not installed"))
  else match run with
    | .done rc _ err => if rc ≠ 0 then (false, some (stripPy err)) else (true, none)
    | .timeout => (false, some (str "pdftotext timed out"))
    | .exc e => (false, some e)

/-- `run_verapdf(pdf_path)` (source lines 123-155). Returns
`(ran, passed, note)`. -/
def run_verapdf (which : Bool) (run : Subp) :
    Bool × Option Bool × Option Str :=
  if !which then (false, none, none)
  else match run with
    | .done rc out err =>
      let o := lowerStr (out ++ '\n' :: err)
      let passed0 : Option Bool :=
        if containsStr o (str "pass") && !containsStr o (str "fail") then some true
        else none
      let passed : Option Bool :=
        if containsStr o (str "fail") then some false else passed0
      let note : Option Str :=
        if decide (rc ≠ 0) && passed.isNone then
          some (str "verapdf return code " ++ intStr rc)
        else none
      (true, passed, note)
    | .timeout => (true, none, some (str "verapdf timed out"))
    | .exc e => (true, none, some (str "verapdf exception: " ++ e))

/-- A page-fetch response as the network produced it: either a raised
exception (connection, DNS, timeout), or a status with headers and
decoded text. -/
inductive FetchResp where
  | exc (msg : Str)
  | resp (status : Nat) (ct : Str) (text : Str)
deriving Repr

/-- `fetch_html(session, url, timeout)` (source lines 158-169). -/
def fetch_html (r : FetchResp) : Option Nat × Option Str × Option Str :=
  match r with
  | .exc _ => (none, none, none)
  | .resp status ct text =>
    if status ≥ 400 then (some status, some ct, none)
    else if !containsStr ct (str "text/html") &&
            !containsStr ct (str "application/xhtml+xml") then
      (some status, some ct, none)
    else (some status, some ct, some text)

/-- One event of a streamed response body: a chunk from `iter_content`,
or an exception raised mid-stream. -/
inductive StreamEv where
  | chunk (bytes : List Nat)
  | raise (msg : Str)
deriving DecidableEq, Repr

/-- A download response: an exception before the response arrived, or a
status with headers and a body stream. -/
inductive DlResp where
  | exc (msg : Str)
  | resp (status : Nat) (ct : Str) (stream : List StreamEv)
deriving DecidableEq, Repr

/-- Result of consuming a body stream under the byte cap. -/
inductive DlOutcome where
  | success (total : Nat) (bytes : List Nat)
  | exceeded (total : Nat) (written : List Nat)
  | raised (msg : Str) (written : List Nat)
deriving DecidableEq, Repr

/-- The `for chunk in r.iter_content(...)` loop of `download_pdf`
(source lines 193-200): skip empty chunks, count the chunk, abort
before writing when the count crosses `max_bytes`, otherwise write and
hash the chunk. `acc` is both the file content so far and the byte
sequence hashed so far (the code writes and hashes the same chunks). -/
def downloadStream (maxBytes : Nat) : List StreamEv → Nat → List Nat → DlOutcome
  | [], total, acc => .success total acc
  | .chunk c :: rest, total, acc =>
    if c = [] then downloadStream maxBytes rest total acc
    else
      if total + c.length > maxBytes then .exceeded (total + c.length) acc
      else downloadStream maxBytes rest (total + c.length) (acc ++ c)
  | .raise m :: _, _, acc => .raised m acc

/-- Association-list file system (path to content); `fsSet` shadows
any earlier entry, which models overwriting the file. -/
def fsGet {α : Type} : List (Str × α) → Str → Option α
  | [], _ => none
  | (k, v) :: rest, k' => if k = k' then some v else fsGet rest k'

/-- Write (create or overwrite) a file. -/
def fsSet {α : Type} (m : List (Str × α)) (k : Str) (v : α) : List (Str × α) :=
  (k, v) :: m

/-- Downloaded-PDF files: path to raw bytes. -/
abbrev FSb := List (Str × List Nat)

/-- Extracted-text files: path to decoded text. -/
abbrev FSt := List (Str × Str)

/-- The four returned values of `download_pdf`; the last is the string
that holds either a diagnostic note or the hex digest (the caller
disambiguates them with a regex, source lines 296-302). -/
structure DlRet where
  status : Option Nat
  ct : Option Str
  bytes : Option Nat
  note_or_sha : Str
deriving DecidableEq, Repr

/-- `download_pdf(session, url, out_path, timeout, max_bytes)` (source
lines 172-205). Opening the output file truncates it, so on the
exceeded and mid-stream-exception paths the file holds exactly the
chunks written before the abort. -/
def download_pdf (r : DlResp) (maxBytes : Nat) (pdfs : FSb) (path : Str) :
    FSb × DlRet :=
  match r with
  | .exc m => (pdfs, ⟨none, none, none, str "download exception: " ++ m⟩)
  | .resp status ct stream =>
    if status ≥ 400 then
      (pdfs, ⟨some status, some ct, none, str "HTTP " ++ natStr status⟩)
    else match downloadStream maxBytes stream 0 [] with
      | .success total bytes =>
        (fsSet pdfs path bytes,
         ⟨some status, some ct, some total, sha256hexModel bytes⟩)
      | .exceeded total written =>
        (fsSet pdfs path written,
         ⟨some status, some ct, some total,
          str "exceeded max_bytes=" ++ natStr maxBytes⟩)
      | .raised m written =>
        (fsSet pdfs path written,
         ⟨none, none, none, str "download exception: " ++ m⟩)

/-! ## The result record and the crawl orchestrator -/

/-- The `PdfResult` dataclass (source lines 24-42). `text_density` is a
float in the source; here it is the exact rational the division denotes
(the claims under verification concern when the division happens, not
float rounding). -/
structure PdfResult where
  pdf_url : Str
  source_page : Str
  http_status : Option Nat
  content_type : Option Str
  bytes_downloaded : Option Nat
  sha256 : Option Str
  has_text_layer : Option Bool
  fonts_count : Option Nat
  pdftotext_ran : Bool
  pdftotext_ok : Option Bool
  pdftotext_output : Option Str
  pdftotext_bytes : Option Nat
  pdftotext_chars : Option Nat
  text_density : Option ℚ
  verapdf_ran : Bool
  verapdf_passed : Option Bool
  notes : Option Str
deriving DecidableEq, Repr

/-- The environment of one crawl: the network, the HTML-to-links
collaborator (which the specification places out of scope), and the
three external tools. Subprocess oracles are keyed by the content of
the file at the invoked path (`none` = no such file), which is what a
deterministic run of the tool can depend on. -/
structure World where
  fetch : Str → FetchResp
  extractLinks : Str → Str → List Str
  download : Str → DlResp
  pdffontsWhich : Bool
  pdffontsRun : Option (List Nat) → Subp
  pdftotextWhich : Bool
  pdftotextRun : Option (List Nat) → Subp
  pdftotextText : Option (List Nat) → Str
  readTextRes : Option Str → Except Str Str
  verapdfWhich : Bool
  verapdfRun : Option (List Nat) → Subp

/-- Python truthiness of an `Optional[bool]`. -/
def truthyOptBool (o : Option Bool) : Bool := o.getD false

/-- Python truthiness of an `Optional[str]`. -/
def truthyOptStr : Option Str → Bool
  | some s => s ≠ []
  | none => false

/-- Python truthiness of an `Optional[int]`. -/
def truthyOptNat : Option Nat → Bool
  | some n => n ≠ 0
  | none => false

/-- The `(note + "; " if note else "") + msg` idiom. -/
def noteJoin (n : Option Str) (msg : Str) : Str :=
  match n with
  | some x => if x ≠ [] then x ++ str "; " ++ msg else msg
  | none => msg

/-- `if m: note = (note + "; " if note else "") + m` — append only a
truthy diagnostic. -/
def noteAppendIf (n : Option Str) (m : Option Str) : Option Str :=
  match m with
  | some msg => if msg ≠ [] then some (noteJoin n msg) else n
  | none => n

/-- `pdf_path.with_suffix(".pdftotext.txt")`; the paths it is applied to
always end in `.pdf`, so replacing from the last dot is the pathlib
behaviour. -/
def withSuffixTxt (p : Str) : Str :=
  match splitLast '.' p with
  | some (pre, _) => pre ++ str ".pdftotext.txt"
  | none => p ++ str ".pdftotext.txt"

/-- `len(data.encode("utf-8", errors="replace"))` for already-decoded
text. -/
def utf8Length (s : Str) : Nat := s.foldl (fun a c => a + c.utf8Size) 0

/-- The hash-vs-note disambiguation of the fourth `download_pdf` value
(source lines 296-302): on a present status, a nonempty exact 64-hex
string is the digest, anything else is a note. -/
def dlDisamb (ret : DlRet) : Option Str × Option Str :=
  match ret.status with
  | none => (none, some ret.note_or_sha)
  | some _ =>
    if ret.note_or_sha ≠ [] ∧ isHex64 ret.note_or_sha then
      (some ret.note_or_sha, none)
    else (none, some ret.note_or_sha)

/-- The gated text-extraction stage (source lines 308-320): runs only
when the opt-in flag is set, the text-layer verdict is truthy, and the
downloaded file exists (`content` is its bytes when it does). Returns
`(pdftotext_ran, pdftotext_ok, pdftotext_output, txts, note)`. -/
def extStage (w : World) (pdftotext : Bool) (htl : Option Bool)
    (content : Option (List Nat)) (txt_path : Str) (txts : FSt)
    (note : Option Str) : Bool × Option Bool × Option Str × FSt × Option Str :=
  if pdftotext && truthyOptBool htl && content.isSome then
    let pt := run_pdftotext w.pdftotextWhich (w.pdftotextRun content)
    let txts' := if pt.1 then fsSet txts txt_path (w.pdftotextText content) else txts
    let outputv : Option Str := if pt.1 then some txt_path else none
    let note' :=
      if !pt.1 then some (noteJoin note (str "pdftotext failed: " ++ pt.2.getD []))
      else note
    (true, some pt.1, outputv, txts', note')
  else (false, none, none, txts, note)

/-- The density computation (source lines 322-334): gated on a truthy
`pdftotext_ok`, output path and byte count; reads the written text file
back. Returns `(pdftotext_bytes, pdftotext_chars, text_density, note)`. -/
def densityStage (w : World) (okv : Option Bool) (outv : Option Str)
    (bytes : Option Nat) (txts : FSt) (txt_path : Str) (note : Option Str) :
    Option Nat × Option Nat × Option ℚ × Option Str :=
  if truthyOptBool okv && truthyOptStr outv && truthyOptNat bytes then
    match w.readTextRes (fsGet txts txt_path) with
    | .ok data =>
      let dens : Option ℚ :=
        if truthyOptNat bytes then
          some ((utf8Length data : ℚ) / ((bytes.getD 0 : Nat) : ℚ))
        else none
      (some (utf8Length data), some data.length, dens, note)
    | .error e =>
      (none, none, none,
       some (noteJoin note (str "pdftotext read failed: " ++ e)))
  else (none, none, none, note)

/-- The optional conformance stage (source lines 336-341). Returns
`(verapdf_ran, verapdf_passed, note)`. -/
def veraStage (w : World) (run_vera : Bool) (content : Option (List Nat))
    (note : Option Str) : Bool × Option Bool × Option Str :=
  if run_vera then
    let v := run_verapdf w.verapdfWhich (w.verapdfRun content)
    (v.1, v.2.1, noteAppendIf note v.2.2)
  else (false, none, note)

/-- The per-PDF-link pipeline of `crawl` (source lines 253-363): the
dry-run stub record, or download → regex disambiguation of hash vs note
→ `pdffonts` → gated `pdftotext` → density → optional `verapdf`,
folded into one `PdfResult`. Returns the record and the two file-system
layers it may have written. -/
def pdfRecord (w : World) (max_bytes : Nat) (out_dir : Str)
    (run_vera pdftotext dry_run : Bool) (page link : Str)
    (pdfs : FSb) (txts : FSt) : PdfResult × FSb × FSt :=
  if dry_run then
    ({ pdf_url := link, source_page := page, http_status := none,
       content_type := none, bytes_downloaded := none, sha256 := none,
       has_text_layer := none, fonts_count := none, pdftotext_ran := false,
       pdftotext_ok := none, pdftotext_output := none, pdftotext_bytes := none,
       pdftotext_chars := none, text_density := none, verapdf_ran := false,
       verapdf_passed := none,
       notes := some (str "dry-run (not downloaded)") }, pdfs, txts)
  else
    let pdf_path := out_dir ++ str "/pdfs/" ++ safe_filename_from_url link
    let dl := download_pdf (w.download link) max_bytes pdfs pdf_path
    let ret := dl.2
    let sn := dlDisamb ret
    let pf := run_pdffonts w.pdffontsWhich (w.pdffontsRun (fsGet dl.1 pdf_path))
    let note := noteAppendIf sn.2 pf.2.2
    let txt_path := withSuffixTxt pdf_path
    let ex := extStage w pdftotext pf.1 (fsGet dl.1 pdf_path) txt_path txts note
    let dn := densityStage w ex.2.1 ex.2.2.1 ret.bytes ex.2.2.2.1 txt_path ex.2.2.2.2
    let vr := veraStage w run_vera (fsGet dl.1 pdf_path) dn.2.2.2
    ({ pdf_url := link, source_page := page, http_status := ret.status,
       content_type := ret.ct, bytes_downloaded := ret.bytes, sha256 := sn.1,
       has_text_layer := pf.1, fonts_count := pf.2.1,
       pdftotext_ran := ex.1, pdftotext_ok := ex.2.1,
       pdftotext_output := ex.2.2.1, pdftotext_bytes := dn.1,
       pdftotext_chars := dn.2.1, text_density := dn.2.2.1,
       verapdf_ran := vr.1, verapdf_passed := vr.2.1,
       notes := vr.2.2 }, dl.1, ex.2.2.2.1)

/-- The mutable state of `crawl` (source lines 233-237): the two dedup
sets, the FIFO frontier, the accumulated records, and the file system.
`seen_pdfs` is declared by the source and never read or written again —
it is carried here untouched (see the duplicate-record claim). -/
structure CrawlSt where
  seen_pages : List Str
  seen_pdfs : List Str
  queue : List Str
  results : List PdfResult
  pdfs : FSb
  txts : FSt
deriving DecidableEq

/-- The state after `processLinks` when it did not raise (the default
value is never used by any statement; it only totalises the
projection). -/
def okCrawlSt : Except Str CrawlSt → CrawlSt
  | .ok st => st
  | .error _ => ⟨[], [], [], [], [], []⟩

/-- The PDF branch of the link loop (source lines 255-363): a PDF-shaped
link appends exactly one record and may write files; any other link
leaves the state unchanged. -/
def linkPdfStep (w : World) (max_bytes : Nat) (out_dir : Str)
    (run_vera pdftotext dry_run : Bool) (page link : Str)
    (st : CrawlSt) : CrawlSt :=
  if is_probably_pdf link then
    let r := pdfRecord w max_bytes out_dir run_vera pdftotext dry_run page link st.pdfs st.txts
    { st with results := st.results ++ [r.1], pdfs := r.2.1, txts := r.2.2 }
  else st

/-- The recursion branch of the link loop (source lines 366-370), after
`same_origin` evaluated to `so` without raising: enqueue the link iff it
is same-origin, not yet fetched, and not PDF-shaped. -/
def maybeEnqueue (link : Str) (so : Bool) (st : CrawlSt) : CrawlSt :=
  if so && !(decide (link ∈ st.seen_pages)) then
    if !is_probably_pdf link then { st with queue := st.queue ++ [link] }
    else st
  else st

/-- The `for link in links` loop of `crawl` (source lines 253-370): for
each link, the PDF branch appends one record, then the recursion branch
may enqueue the link; `same_origin` can raise a `ValueError`, which
propagates out of `crawl`, modelled by the `.error` case. -/
def processLinks (w : World) (start_url : Str) (recursive : Bool)
    (max_bytes : Nat) (out_dir : Str) (run_vera pdftotext dry_run : Bool)
    (page : Str) : List Str → CrawlSt → Except Str CrawlSt
  | [], st => .ok st
  | link :: rest, st =>
    let st1 := linkPdfStep w max_bytes out_dir run_vera pdftotext dry_run page link st
    if recursive then
      match same_originE start_url link with
      | .error e => .error e
      | .ok so =>
        processLinks w start_url recursive max_bytes out_dir run_vera pdftotext dry_run page rest
          (maybeEnqueue link so st1)
    else
      processLinks w start_url recursive max_bytes out_dir run_vera pdftotext dry_run page rest st1

/-- The `while queue and (len(seen_pages) < max_pages)` loop of `crawl`
(source lines 240-373). `fuel` bounds the number of iterations; every
terminating run of the source loop is reproduced by every sufficiently
large fuel, and each stated property holds for all fuel. -/
def crawlLoop (w : World) (start_url : Str) (recursive : Bool)
    (max_pages max_bytes : Nat) (out_dir : Str)
    (run_vera pdftotext dry_run : Bool) :
    Nat → CrawlSt → Except Str (List PdfResult)
  | 0, st => .ok st.results
  | fuel + 1, st =>
    match st.queue with
    | [] => .ok st.results
    | page :: rest =>
      if st.seen_pages.length < max_pages then
        let st1 : CrawlSt := { st with queue := rest }
        if decide (page ∈ st1.seen_pages) then
          crawlLoop w start_url recursive max_pages max_bytes out_dir run_vera pdftotext dry_run fuel st1
        else
          let st2 : CrawlSt := { st1 with seen_pages := page :: st1.seen_pages }
          let f := fetch_html (w.fetch page)
          match f.2.2 with
          | none =>
            crawlLoop w start_url recursive max_pages max_bytes out_dir run_vera pdftotext dry_run fuel st2
          | some body =>
            if body = [] then
              crawlLoop w start_url recursive max_pages max_bytes out_dir run_vera pdftotext dry_run fuel st2
            else
              let links := w.extractLinks body page
              match processLinks w start_url recursive max_bytes out_dir run_vera pdftotext dry_run page links st2 with
              | .error e => .error e
              | .ok st3 =>
                if recursive then
                  crawlLoop w start_url recursive max_pages max_bytes out_dir run_vera pdftotext dry_run fuel st3
                else .ok st3.results
      else .ok st.results

/-- `crawl(start_url, recursive, max_pages, timeout, max_bytes, out_dir,
include_external_pdfs, run_vera, pdftotext, dry_run)` (source lines
219-375). The `timeout` argument only parameterises the network and
subprocess calls, whose behaviour the `World` already fixes; the
`include_external_pdfs` argument is accepted, as in the source, and
never consulted. -/
def crawl (start_url : Str) (recursive : Bool)
    (max_pages timeout max_bytes : Nat) (out_dir : Str)
    (include_external_pdfs run_vera pdftotext dry_run : Bool)
    (w : World) (fuel : Nat) : Except Str (List PdfResult) :=
  crawlLoop w start_url recursive max_pages max_bytes out_dir run_vera pdftotext dry_run fuel
    { seen_pages := [], seen_pdfs := [], queue := [start_url],
      results := [], pdfs := [], txts := [] }

/-! ## Auxiliary definitions used by the statements -/

/-- No `raise` event occurs in the stream. -/
def noRaise : List StreamEv → Bool
  | [] => true
  | .chunk _ :: r => noRaise r
  | .raise _ :: _ => false

/-- The bytes of the stream's chunks, in order, up to a `raise`. -/
def streamBytes : List StreamEv → List Nat
  | [] => []
  | .chunk c :: r => c ++ streamBytes r
  | .raise _ :: _ => []

/-- `same_origin` as a Boolean, `false` also on a raised `ValueError`
(the crawl claims that use it are conditioned on no raise occurring). -/
def sameOriginB (a b : Str) : Bool :=
  match same_originE a b with
  | .ok so => so
  | .error _ => false

/-- The condition under which the link loop appends `l` to the frontier
(source lines 365-370): recursion on, same origin as the start URL,
not already fetched, not PDF-shaped. -/
def enqCond (start_url : Str) (recursive : Bool) (seen : List Str) (l : Str) : Bool :=
  recursive && sameOriginB start_url l &&
  !(decide (l ∈ seen)) && !is_probably_pdf l

/-- The list of `pdf_url` fields of a crawl result (empty on a raised
`ValueError`). -/
def resultUrls : Except Str (List PdfResult) → List Str
  | .ok rs => rs.map (fun r => r.pdf_url)
  | .error _ => []

/-- A URL string carries its own scheme designator (`urlsplit` detects a
scheme on it); its negation is what "relative URL" means here. -/
def hasScheme (u : Str) : Bool := (schemeSplit u).isSome

/-- Shape of a scheme accepted by the detection step: nonempty, leading
ASCII letter, all characters in `scheme_chars`. -/
def validScheme : Str → Prop
  | [] => False
  | c0 :: rest => isAsciiAlpha c0 = true ∧ ∀ c ∈ c0 :: rest, c ∈ schemeChars

/-- A crawl environment whose start page links the same PDF URL twice;
dry-run crawls over it exhibit the missing `seen_pdfs` dedup. -/
def worldDry : World := {
  fetch := fun u =>
    if u = str "http://a/" then .resp 200 (str "text/html") (str "x")
    else .exc (str "refused"),
  extractLinks := fun _ base =>
    if base = str "http://a/" then [str "http://a/d.pdf", str "http://a/d.pdf"]
    else [],
  download := fun _ => .exc (str "refused"),
  pdffontsWhich := false, pdffontsRun := fun _ => .timeout,
  pdftotextWhich := false, pdftotextRun := fun _ => .timeout,
  pdftotextText := fun _ => [], readTextRes := fun _ => .error [],
  verapdfWhich := false, verapdfRun := fun _ => .timeout }

/-- A crawl environment in which the download of the PDF is truncated by
the byte cap after one written chunk, and the font tool, run on the
truncated file, still reports a font row — exactly what a partially
downloaded large PDF with an intact font table produces. -/
def worldTrunc : World := {
  fetch := fun _ => .exc (str "refused"),
  extractLinks := fun _ _ => [],
  download := fun u =>
    if u = str "http://a/d.pdf" then
      .resp 200 (str "application/pdf") [.chunk [37], .chunk [80, 68, 70]]
    else .exc (str "refused"),
  pdffontsWhich := true,
  pdffontsRun := fun c =>
    if c = some [37] then .done 0 (str "FontOne\n") [] else .done 1 [] (str "err"),
  pdftotextWhich := false, pdftotextRun := fun _ => .timeout,
  pdftotextText := fun _ => [], readTextRes := fun _ => .error [],
  verapdfWhich := false, verapdfRun := fun _ => .timeout }

/-- A crawl environment in which every download is refused with an HTTP
404 and both analysis tools fail on a missing file. -/
def worldMissing : World := {
  fetch := fun _ => .exc (str "refused"),
  extractLinks := fun _ _ => [],
  download := fun _ => .resp 404 (str "text/html") [],
  pdffontsWhich := true, pdffontsRun := fun _ => .done 1 [] (str "no such file"),
  pdftotextWhich := true, pdftotextRun := fun _ => .done 1 [] (str "no such file"),
  pdftotextText := fun _ => [], readTextRes := fun _ => .error [],
  verapdfWhich := true, verapdfRun := fun _ => .done 1 (str "error: missing") [] }

/-! ## General lemmas -/

theorem splitFirst_append (c : Char) :
    ∀ (s a b : Str), splitFirst c s = some (a, b) → s = a ++ c :: b ∧ c ∉ a := by
  intro s
  induction s with
  | nil => intro a b h; exact absurd h (by simp [splitFirst])
  | cons x xs ih =>
    intro a b h
    by_cases hx : x = c
    · simp only [splitFirst, if_pos hx] at h
      obtain ⟨ha, hb⟩ := Prod.mk.injEq .. ▸ Option.some.inj h
      subst ha; subst hb; subst hx; simp
    · simp only [splitFirst, if_neg hx] at h
      cases hsf : splitFirst c xs with
      | none => rw [hsf] at h; exact absurd h (by simp)
      | some p =>
        obtain ⟨a', b'⟩ := p
        rw [hsf] at h
        obtain ⟨ha, hb⟩ := Prod.mk.injEq .. ▸ Option.some.inj h
        obtain ⟨hs, hmem⟩ := ih a' b' hsf
        subst ha; subst hb
        constructor
        · simp [hs]
        · simp only [List.mem_cons]
          rintro (h | h)
          · exact hx h.symm
          · exact hmem h

theorem splitFirst_none (c : Char) :
    ∀ (s : Str), splitFirst c s = none → c ∉ s := by
  intro s
  induction s with
  | nil => intro _; exact List.not_mem_nil c
  | cons x xs ih =>
    intro h
    by_cases hx : x = c
    · simp [splitFirst, if_pos hx] at h
    · simp only [splitFirst, if_neg hx] at h
      cases hsf : splitFirst c xs with
      | none =>
        simp only [List.mem_cons]
        rintro (hc | hc)
        · exact hx hc.symm
        · exact ih hsf hc
      | some p => rw [hsf] at h; exact absurd h (by simp)

theorem isHex64_sha256hexModel (bytes : List Nat) :
    isHex64 (sha256hexModel bytes) = true := by
  unfold sha256hexModel isHex64
  simp only [List.length_map, List.length_range]
  rw [Bool.and_eq_true, List.all_eq_true]
  refine ⟨by decide, ?_⟩
  intro c hc
  rw [List.mem_map] at hc
  obtain ⟨i, _, rfl⟩ := hc
  have h16 : ∀ k, k < 16 → isHexLower (hexDigit k) = true := by decide
  exact h16 _ (Nat.mod_lt _ (by norm_num))

theorem isHex64_false_of_fst (c0 : Char) (t : Str) (h : isHexLower c0 = false) :
    isHex64 (c0 :: t) = false := by
  unfold isHex64
  simp [h]

theorem isHex64_false_of_snd (c0 c1 : Char) (t : Str) (h : isHexLower c1 = false) :
    isHex64 (c0 :: c1 :: t) = false := by
  unfold isHex64
  simp [h]

theorem noteHTTP_not_hex (t : Str) : isHex64 (str "HTTP " ++ t) = false := by
  have h : str "HTTP " = 'H' :: ['T', 'T', 'P', ' '] := rfl
  rw [h, List.cons_append]
  exact isHex64_false_of_fst _ _ (by decide)

theorem noteExc_not_hex (t : Str) :
    isHex64 (str "download exception: " ++ t) = false := by
  have h : str "download exception: " =
      'd' :: 'o' :: ['w', 'n', 'l', 'o', 'a', 'd', ' ', 'e', 'x', 'c', 'e',
        'p', 't', 'i', 'o', 'n', ':', ' '] := rfl
  rw [h, List.cons_append, List.cons_append]
  exact isHex64_false_of_snd _ _ _ (by decide)

theorem noteExceeded_not_hex (t : Str) :
    isHex64 (str "exceeded max_bytes=" ++ t) = false := by
  have h : str "exceeded max_bytes=" =
      'e' :: 'x' :: ['c', 'e', 'e', 'd', 'e', 'd', ' ', 'm', 'a', 'x', '_',
        'b', 'y', 't', 'e', 's', '='] := rfl
  rw [h, List.cons_append, List.cons_append]
  exact isHex64_false_of_snd _ _ _ (by decide)

/-! ## Claim C4 -/

/-- C4: for every fixed start URL, configuration, environment and
iteration budget, the crawl with `include_external_pdfs = true` returns
exactly the crawl with `include_external_pdfs = false`: the flag is
accepted and never consulted, so off-origin PDF-shaped links are
recorded identically in both runs. -/
theorem claim_C4_include_external_pdfs_ignored
    (start_url : Str) (recursive : Bool) (max_pages timeout max_bytes : Nat)
    (out_dir : Str) (run_vera pdftotext dry_run : Bool)
    (w : World) (fuel : Nat) :
    crawl start_url recursive max_pages timeout max_bytes out_dir true
        run_vera pdftotext dry_run w fuel
      = crawl start_url recursive max_pages timeout max_bytes out_dir false
        run_vera pdftotext dry_run w fuel := rfl

/-! ## Claim C6 -/

/-- C6: with the tool present and a completed run, `run_verapdf`
classifies the lower-cased combined output: "fail" present forces
`passed = false` (priority over "pass"), "pass" present without "fail"
gives `passed = true`, neither gives the unknown verdict; a non-zero
exit code with a still-unknown verdict appends a note carrying the exit
code; with the tool absent the stage reports not-attempted with no
note. -/
theorem claim_C6_verapdf_verdict (rc : Int) (out err : Str) (r : Subp) :
    (let o := lowerStr (out ++ '\n' :: err)
     let res := run_verapdf true (.done rc out err)
     (containsStr o (str "fail") = true → res.2.1 = some false)
     ∧ (containsStr o (str "fail") = false → containsStr o (str "pass") = true →
        res.2.1 = some true)
     ∧ (containsStr o (str "fail") = false → containsStr o (str "pass") = false →
        res.2.1 = none)
     ∧ (rc ≠ 0 → res.2.1 = none →
        res.2.2 = some (str "verapdf return code " ++ intStr rc))
     ∧ res.1 = true)
    ∧ run_verapdf false r = (false, none, none) := by
  constructor
  · refine ⟨?_, ?_, ?_, ?_, ?_⟩
    · intro hfail
      simp [run_verapdf, hfail]
    · intro hfail hpass
      simp [run_verapdf, hfail, hpass]
    · intro hfail hpass
      simp [run_verapdf, hfail, hpass]
    · intro hrc hnone
      cases hf : containsStr (lowerStr (out ++ '\n' :: err)) (str "fail") with
      | true => simp [run_verapdf, hf] at hnone
      | false =>
        cases hp : containsStr (lowerStr (out ++ '\n' :: err)) (str "pass") with
        | true => simp [run_verapdf, hf, hp] at hnone
        | false => simp [run_verapdf, hf, hp, hrc]
    · simp [run_verapdf]
  · simp [run_verapdf]

/-- Witness for C6 at a concrete run: output "FAIL", exit code 1. -/
theorem claim_C6_verapdf_verdict_witness :
    (run_verapdf true (.done 1 (str "FAIL") [])).2.1 = some false := by
  have h := claim_C6_verapdf_verdict 1 (str "FAIL") [] .timeout
  exact h.1.1 (by decide)

/-! ## Claim C7 -/

/-- C7: the fetcher returns all three fields absent on a raised network
exception, status and content-type with no body on HTTP status at least
400, status and content-type with no body when the content-type is
neither HTML nor XHTML, and the decoded text as body otherwise. -/
theorem claim_C7_fetch_contract (m : Str) (status : Nat) (ct text : Str) :
    fetch_html (.exc m) = (none, none, none)
    ∧ (status ≥ 400 → fetch_html (.resp status ct text) = (some status, some ct, none))
    ∧ (status < 400 → containsStr ct (str "text/html") = false →
        containsStr ct (str "application/xhtml+xml") = false →
        fetch_html (.resp status ct text) = (some status, some ct, none))
    ∧ (status < 400 →
        (containsStr ct (str "text/html") = true ∨
         containsStr ct (str "application/xhtml+xml") = true) →
        fetch_html (.resp status ct text) = (some status, some ct, some text)) := by
  refine ⟨rfl, ?_, ?_, ?_⟩
  · intro h
    simp [fetch_html, h]
  · intro h h1 h2
    rw [fetch_html]
    rw [if_neg (by omega), if_pos (by simp [h1, h2])]
  · intro h h12
    rw [fetch_html]
    rw [if_neg (by omega), if_neg (by rcases h12 with h1 | h1 <;> simp [h1])]

/-- Witness for C7 at a concrete fetch: HTML page, status 200. -/
theorem claim_C7_fetch_contract_witness :
    fetch_html (.resp 200 (str "text/html; charset=utf-8") (str "<p>"))
      = (some 200, some (str "text/html; charset=utf-8"), some (str "<p>")) := by
  exact (claim_C7_fetch_contract [] 200 (str "text/html; charset=utf-8")
    (str "<p>")).2.2.2 (by norm_num) (Or.inl (by decide))

/-! ## Download stream lemmas and claim C2 -/

theorem fsGet_fsSet {α : Type} (m : List (Str × α)) (k : Str) (v : α) :
    fsGet (fsSet m k v) k = some v := by
  simp [fsGet, fsSet]

theorem downloadStream_success (m : Nat) :
    ∀ (s : List StreamEv) (total : Nat) (acc : List Nat),
      noRaise s = true → total + (streamBytes s).length ≤ m →
      downloadStream m s total acc
        = .success (total + (streamBytes s).length) (acc ++ streamBytes s) := by
  intro s
  induction s with
  | nil => intro total acc _ _; simp [downloadStream, streamBytes]
  | cons ev rest ih =>
    intro total acc hnr hle
    cases ev with
    | chunk c =>
      simp only [noRaise] at hnr
      simp only [streamBytes, List.length_append] at hle ⊢
      by_cases hc : c = []
      · subst hc
        simp only [downloadStream, if_pos rfl]
        simpa using ih total acc hnr (by simpa using hle)
      · rw [downloadStream, if_neg hc, if_neg (by omega)]
        rw [ih (total + c.length) (acc ++ c) hnr (by omega)]
        simp [List.append_assoc]
        omega
    | raise msg => simp [noRaise] at hnr

theorem downloadStream_success_inv (m : Nat) :
    ∀ (s : List StreamEv) (total : Nat) (acc : List Nat) (n : Nat) (b : List Nat),
      total ≤ m →
      downloadStream m s total acc = .success n b →
      noRaise s = true ∧ n = total + (streamBytes s).length ∧
        b = acc ++ streamBytes s ∧ n ≤ m := by
  intro s
  induction s with
  | nil =>
    intro total acc n b hle h
    simp only [downloadStream, DlOutcome.success.injEq] at h
    obtain ⟨rfl, rfl⟩ := h
    simp [noRaise, streamBytes, hle]
  | cons ev rest ih =>
    intro total acc n b hle h
    cases ev with
    | chunk c =>
      simp only [downloadStream] at h
      by_cases hc : c = []
      · rw [if_pos hc] at h
        obtain ⟨h1, h2, h3, h4⟩ := ih total acc n b hle h
        subst hc
        simp only [noRaise, streamBytes]
        exact ⟨h1, by simpa using h2, by simpa using h3, h4⟩
      · rw [if_neg hc] at h
        by_cases hgt : total + c.length > m
        · rw [if_pos hgt] at h
          exact absurd h (by simp)
        · rw [if_neg hgt] at h
          obtain ⟨h1, h2, h3, h4⟩ := ih (total + c.length) (acc ++ c) n b (by omega) h
          refine ⟨h1, ?_, ?_, h4⟩
          · simp only [streamBytes, List.length_append]; omega
          · simp only [streamBytes]; rw [h3, List.append_assoc]
    | raise msg =>
      simp only [downloadStream] at h
      exact absurd h (by simp)

theorem downloadStream_exceeded (m : Nat) :
    ∀ (s : List StreamEv) (total : Nat) (acc : List Nat),
      acc.length = total → total ≤ m → noRaise s = true →
      total + (streamBytes s).length > m →
      ∃ n w, downloadStream m s total acc = .exceeded n w ∧ m < n ∧
        w.length ≤ m ∧ w <+: acc ++ streamBytes s := by
  intro s
  induction s with
  | nil =>
    intro total acc _ hle _ hgt
    simp only [streamBytes, List.length_nil] at hgt
    omega
  | cons ev rest ih =>
    intro total acc hlen hle hnr hgt
    cases ev with
    | chunk c =>
      simp only [noRaise] at hnr
      simp only [streamBytes, List.length_append] at hgt ⊢
      by_cases hc : c = []
      · subst hc
        rw [downloadStream, if_pos rfl]
        simpa using ih total acc hlen hle hnr (by simpa using hgt)
      · rw [downloadStream, if_neg hc]
        by_cases hcross : total + c.length > m
        · rw [if_pos hcross]
          exact ⟨total + c.length, acc, rfl, by omega, by omega,
            List.prefix_append acc _⟩
        · rw [if_neg hcross]
          obtain ⟨n, w, h1, h2, h3, h4⟩ :=
            ih (total + c.length) (acc ++ c) (by simp [hlen]) (by omega) hnr (by omega)
          refine ⟨n, w, h1, h2, h3, ?_⟩
          rwa [List.append_assoc] at h4
    | raise msg => simp [noRaise] at hnr

/-- C2: `download_pdf` returns the content hash (a 64-hex string, which
is exactly what the caller's regex accepts) in its note-or-digest slot
if and only if a response arrived with status below 400 and the full
byte stream was consumed without the accumulated count ever exceeding
`max_bytes`; in that case the count, digest and stored file cover the
whole stream and no note is produced. When the accumulated count
exceeds `max_bytes` the loop aborts with no further writes — the stored
file is a prefix of the stream of at most `max_bytes` bytes — and
returns the partial count, which exceeds `max_bytes`, together with the
note `exceeded max_bytes=N` and no hash. -/
theorem claim_C2_download_hash_iff (r : DlResp) (m : Nat) (fs : FSb) (p : Str) :
    (isHex64 (download_pdf r m fs p).2.note_or_sha = true ↔
      ∃ status ct stream, r = .resp status ct stream ∧ status < 400 ∧
        noRaise stream = true ∧ (streamBytes stream).length ≤ m)
    ∧ (∀ status ct stream, r = .resp status ct stream → status < 400 →
        noRaise stream = true → (streamBytes stream).length ≤ m →
        (download_pdf r m fs p).2.note_or_sha = sha256hexModel (streamBytes stream)
        ∧ (download_pdf r m fs p).2.bytes = some (streamBytes stream).length
        ∧ fsGet (download_pdf r m fs p).1 p = some (streamBytes stream))
    ∧ (∀ status ct stream, r = .resp status ct stream → status < 400 →
        noRaise stream = true → m < (streamBytes stream).length →
        ∃ n w, (download_pdf r m fs p).2.bytes = some n ∧ m < n
          ∧ (download_pdf r m fs p).2.note_or_sha = str "exceeded max_bytes=" ++ natStr m
          ∧ fsGet (download_pdf r m fs p).1 p = some w ∧ w.length ≤ m
          ∧ w <+: streamBytes stream) := by
  refine ⟨?_, ?_, ?_⟩
  · cases r with
    | exc msg =>
      constructor
      · intro h
        simp only [download_pdf] at h
        rw [noteExc_not_hex] at h
        exact absurd h (by simp)
      · rintro ⟨st, ct, sm, h, -⟩
        exact absurd h (by simp)
    | resp status ct stream =>
      by_cases hst : status ≥ 400
      · constructor
        · intro h
          simp only [download_pdf, if_pos hst] at h
          rw [noteHTTP_not_hex] at h
          exact absurd h (by simp)
        · rintro ⟨st, ct', sm, heq, hlt, -⟩
          obtain ⟨rfl, rfl, rfl⟩ := DlResp.resp.injEq .. ▸ heq
          omega
      · simp only [download_pdf, if_neg hst]
        cases hout : downloadStream m stream 0 [] with
        | success n b =>
          obtain ⟨hnr, hn, hb, hnm⟩ :=
            downloadStream_success_inv m stream 0 [] n b (Nat.zero_le m) hout
          constructor
          · intro _
            exact ⟨status, ct, stream, rfl, by omega, hnr, by omega⟩
          · intro _
            subst hb
            simpa using isHex64_sha256hexModel (streamBytes stream)
        | exceeded n w =>
          constructor
          · intro h
            rw [noteExceeded_not_hex] at h
            exact absurd h (by simp)
          · rintro ⟨st, ct', sm, heq, hlt, hnr, hle⟩
            obtain ⟨rfl, rfl, rfl⟩ := DlResp.resp.injEq .. ▸ heq
            rw [downloadStream_success m stream 0 [] hnr (by omega)] at hout
            exact absurd hout (by simp)
        | raised msg w =>
          constructor
          · intro h
            rw [noteExc_not_hex] at h
            exact absurd h (by simp)
          · rintro ⟨st, ct', sm, heq, hlt, hnr, hle⟩
            obtain ⟨rfl, rfl, rfl⟩ := DlResp.resp.injEq .. ▸ heq
            rw [downloadStream_success m stream 0 [] hnr (by omega)] at hout
            exact absurd hout (by simp)
  · intro status ct stream heq hlt hnr hle
    subst heq
    simp only [download_pdf, if_neg (by omega : ¬ status ≥ 400)]
    rw [downloadStream_success m stream 0 [] hnr (by omega)]
    simp [fsGet_fsSet]
  · intro status ct stream heq hlt hnr hgt
    subst heq
    simp only [download_pdf, if_neg (by omega : ¬ status ≥ 400)]
    obtain ⟨n, w, h1, h2, h3, h4⟩ :=
      downloadStream_exceeded m stream 0 [] rfl (Nat.zero_le m) hnr (by omega)
    rw [h1]
    exact ⟨n, w, rfl, h2, rfl, fsGet_fsSet .., h3, by simpa using h4⟩

/-- Witness for C2 at a concrete successful stream of three bytes. -/
theorem claim_C2_download_hash_iff_witness :
    (download_pdf (.resp 200 (str "application/pdf") [.chunk [1, 2, 3]])
      10 [] (str "f.pdf")).2.bytes = some 3 := by
  have h := (claim_C2_download_hash_iff
    (.resp 200 (str "application/pdf") [.chunk [1, 2, 3]]) 10 [] (str "f.pdf")).2.1
    200 (str "application/pdf") [.chunk [1, 2, 3]] rfl (by norm_num) (by decide) (by decide)
  rw [h.2.1]
  decide

/-! ## Stage lemmas and claims C5, C10 -/

theorem truthyOptBool_iff (o : Option Bool) :
    truthyOptBool o = true ↔ o = some true := by
  cases o with
  | none => simp [truthyOptBool]
  | some b => cases b <;> simp [truthyOptBool]

theorem extStage_ran_iff (w : World) (pdftotext : Bool) (htl : Option Bool)
    (content : Option (List Nat)) (txt_path : Str) (txts : FSt)
    (note : Option Str) :
    (extStage w pdftotext htl content txt_path txts note).1 = true ↔
      pdftotext = true ∧ htl = some true ∧ content.isSome = true := by
  unfold extStage
  by_cases hg : (pdftotext && truthyOptBool htl && content.isSome) = true
  · rw [if_pos hg]
    simp only [Bool.and_eq_true, truthyOptBool_iff] at hg
    simp [hg.1.1, hg.1.2, hg.2]
  · rw [if_neg hg]
    simp only [Bool.and_eq_true, truthyOptBool_iff] at hg
    constructor
    · intro h
      exact absurd h (by simp)
    · rintro ⟨h1, h2, h3⟩
      exact absurd ⟨⟨h1, h2⟩, h3⟩ hg

theorem extStage_not_ran (w : World) (pdftotext : Bool) (htl : Option Bool)
    (content : Option (List Nat)) (txt_path : Str) (txts : FSt)
    (note : Option Str)
    (h : (pdftotext && truthyOptBool htl && content.isSome) = false) :
    extStage w pdftotext htl content txt_path txts note
      = (false, none, none, txts, note) := by
  unfold extStage
  rw [if_neg (by simp [h])]

theorem densityStage_none_of_okv_none (w : World) (outv : Option Str)
    (bytes : Option Nat) (txts : FSt) (txt_path : Str) (note : Option Str) :
    densityStage w none outv bytes txts txt_path note = (none, none, none, note) := by
  unfold densityStage
  rw [if_neg (by simp [truthyOptBool])]

theorem densityStage_guard (w : World) (okv : Option Bool) (outv : Option Str)
    (bytes : Option Nat) (txts : FSt) (txt_path : Str) (note : Option Str) :
    ((bytes = none ∨ bytes = some 0) →
      (densityStage w okv outv bytes txts txt_path note).2.2.1 = none)
    ∧ (∀ q, (densityStage w okv outv bytes txts txt_path note).2.2.1 = some q →
        ∃ tb db, (densityStage w okv outv bytes txts txt_path note).1 = some tb ∧
          bytes = some db ∧ 0 < db ∧ q = (tb : ℚ) / (db : ℚ)) := by
  unfold densityStage
  by_cases hg : (truthyOptBool okv && truthyOptStr outv && truthyOptNat bytes) = true
  · rw [if_pos hg]
    simp only [Bool.and_eq_true] at hg
    have hb : truthyOptNat bytes = true := hg.2
    obtain ⟨db, rfl⟩ : ∃ db, bytes = some db := by
      cases bytes with
      | none => simp [truthyOptNat] at hb
      | some db => exact ⟨db, rfl⟩
    have hdb : db ≠ 0 := by
      intro h0
      subst h0
      simp [truthyOptNat] at hb
    constructor
    · rintro (h | h)
      · exact absurd h (by simp)
      · exact absurd (Option.some.inj h) hdb
    · intro q hq
      cases hr : w.readTextRes (fsGet txts txt_path) with
      | ok data =>
        rw [hr] at hq
        simp only [hb, if_pos rfl] at hq ⊢
        refine ⟨utf8Length data, db, ?_, rfl, Nat.pos_of_ne_zero hdb, ?_⟩
        · simp [hr, hb]
        · have := Option.some.inj hq
          simp [← this]
      | error e =>
        rw [hr] at hq
        simp at hq
  · rw [if_neg hg]
    exact ⟨fun _ => rfl, fun q hq => absurd hq (by simp)⟩

/-- C5: extraction is attempted only when the opt-in flag is set, the
text-layer stage reported `has_text_layer = true`, and the downloaded
file exists on disk; when `has_text_layer` is false or unknown the
stage never runs and every extraction field, including the density,
stays absent, regardless of the flag. -/
theorem claim_C5_extraction_gating (w : World) (mb : Nat) (od : Str)
    (rv pt dr : Bool) (pg lk : Str) (fb : FSb) (ft : FSt) :
    ((pdfRecord w mb od rv pt dr pg lk fb ft).1.pdftotext_ran = true →
      pt = true
      ∧ (pdfRecord w mb od rv pt dr pg lk fb ft).1.has_text_layer = some true
      ∧ (fsGet (pdfRecord w mb od rv pt dr pg lk fb ft).2.1
          (od ++ str "/pdfs/" ++ safe_filename_from_url lk)).isSome = true)
    ∧ ((pdfRecord w mb od rv pt dr pg lk fb ft).1.has_text_layer ≠ some true →
        (pdfRecord w mb od rv pt dr pg lk fb ft).1.pdftotext_ran = false
        ∧ (pdfRecord w mb od rv pt dr pg lk fb ft).1.pdftotext_ok = none
        ∧ (pdfRecord w mb od rv pt dr pg lk fb ft).1.pdftotext_output = none
        ∧ (pdfRecord w mb od rv pt dr pg lk fb ft).1.pdftotext_bytes = none
        ∧ (pdfRecord w mb od rv pt dr pg lk fb ft).1.pdftotext_chars = none
        ∧ (pdfRecord w mb od rv pt dr pg lk fb ft).1.text_density = none)
    ∧ (pt = false → (pdfRecord w mb od rv pt dr pg lk fb ft).1.pdftotext_ran = false) := by
  by_cases hd : dr = true
  · subst hd
    refine ⟨?_, ?_, ?_⟩ <;> simp [pdfRecord]
  · rw [Bool.not_eq_true] at hd
    subst hd
    simp only [pdfRecord, Bool.false_eq_true, if_false]
    refine ⟨?_, ?_, ?_⟩
    · intro hran
      rw [extStage_ran_iff] at hran
      exact ⟨hran.1, hran.2.1, hran.2.2⟩
    · intro hne
      have hht : truthyOptBool (run_pdffonts w.pdffontsWhich
          (w.pdffontsRun (fsGet (download_pdf (w.download lk) mb fb
            (od ++ str "/pdfs/" ++ safe_filename_from_url lk)).1
            (od ++ str "/pdfs/" ++ safe_filename_from_url lk)))).1 = false := by
        rw [Bool.eq_false_iff]
        intro htrue
        exact hne ((truthyOptBool_iff _).mp htrue)
      rw [extStage_not_ran _ _ _ _ _ _ _
        (by simp only [hht, Bool.and_false, Bool.false_and])]
      rw [densityStage_none_of_okv_none]
      exact ⟨rfl, rfl, rfl, rfl, rfl, rfl⟩
    · intro hpt
      subst hpt
      rw [extStage_not_ran _ _ _ _ _ _ _
        (by simp only [Bool.false_and])]

/-- Witness for C5: a dry-run record has no text-layer verdict, so the
extraction stage does not run and its fields are absent. -/
theorem claim_C5_extraction_gating_witness :
    (pdfRecord worldDry 10 (str "o") false true true (str "p") (str "l.pdf")
      [] []).1.pdftotext_ran = false := by
  have h := claim_C5_extraction_gating worldDry 10 (str "o") false true true
    (str "p") (str "l.pdf") [] []
  exact (h.2.1 (by decide)).1

/-- C10: the density division is guarded by a truthy downloaded byte
count: whenever `bytes_downloaded` is absent or zero, `text_density` is
absent, and whenever a density is present it is exactly
`pdftotext_bytes / bytes_downloaded` with a positive denominator — the
division can never be by zero. -/
theorem claim_C10_density_guard (w : World) (mb : Nat) (od : Str)
    (rv pt dr : Bool) (pg lk : Str) (fb : FSb) (ft : FSt) :
    (((pdfRecord w mb od rv pt dr pg lk fb ft).1.bytes_downloaded = none ∨
      (pdfRecord w mb od rv pt dr pg lk fb ft).1.bytes_downloaded = some 0) →
      (pdfRecord w mb od rv pt dr pg lk fb ft).1.text_density = none)
    ∧ (∀ q, (pdfRecord w mb od rv pt dr pg lk fb ft).1.text_density = some q →
        ∃ tb db, (pdfRecord w mb od rv pt dr pg lk fb ft).1.pdftotext_bytes = some tb ∧
          (pdfRecord w mb od rv pt dr pg lk fb ft).1.bytes_downloaded = some db ∧
          0 < db ∧ q = (tb : ℚ) / (db : ℚ)) := by
  by_cases hd : dr = true
  · subst hd
    refine ⟨?_, ?_⟩ <;> simp [pdfRecord]
  · rw [Bool.not_eq_true] at hd
    subst hd
    simp only [pdfRecord, Bool.false_eq_true, if_false]
    exact densityStage_guard w _ _ _ _ _ _

/-- Witness for C10: a dry-run record has no byte count and no
density. -/
theorem claim_C10_density_guard_witness :
    (pdfRecord worldDry 10 (str "o") false false true (str "p") (str "l.pdf")
      [] []).1.text_density = none := by
  have h := claim_C10_density_guard worldDry 10 (str "o") false false true
    (str "p") (str "l.pdf") [] []
  exact h.1 (Or.inl (by decide))

/-! ## Claim C1 -/

/-- C1 (violated by the code): a crawl over a start page whose link list
holds the same PDF-shaped URL twice produces two records for that URL —
the `seen_pdfs` set declared at the top of `crawl` is never consulted,
so no occurrence is ever dropped. The claim promised at most one record
per PDF URL. -/
theorem claim_C1_duplicate_records :
    resultUrls (crawl (str "http://a/") false 1 20 100 (str "o") false false
      false true worldDry 5)
      = [str "http://a/d.pdf", str "http://a/d.pdf"] := by
  decide

/-! ## Claim C3 -/

/-- C3 counterexample: with a byte cap of 2, the download of a 4-byte
stream aborts after writing its first 1-byte chunk; the truncated file
remains on disk, `pdffonts` runs on it and reports a font row, and the
record carries `has_text_layer = true` and `fonts_count = 1` derived
from the partial file, next to the truncation note and the absent
hash — downstream fields are not absent after a size-cap truncation. -/
theorem claim_C3_counterexample :
    (pdfRecord worldTrunc 2 (str "o") false false false (str "http://a/")
      (str "http://a/d.pdf") [] []).1.notes = some (str "exceeded max_bytes=2")
    ∧ (pdfRecord worldTrunc 2 (str "o") false false false (str "http://a/")
      (str "http://a/d.pdf") [] []).1.sha256 = none
    ∧ (pdfRecord worldTrunc 2 (str "o") false false false (str "http://a/")
      (str "http://a/d.pdf") [] []).1.bytes_downloaded = some 4
    ∧ (pdfRecord worldTrunc 2 (str "o") false false false (str "http://a/")
      (str "http://a/d.pdf") [] []).1.has_text_layer = some true
    ∧ (pdfRecord worldTrunc 2 (str "o") false false false (str "http://a/")
      (str "http://a/d.pdf") [] []).1.fonts_count = some 1 := by
  decide

theorem run_pdffonts_fail_none (which : Bool) (run : Subp)
    (h : ∀ rc out err, run = .done rc out err → rc ≠ 0) :
    (run_pdffonts which run).1 = none ∧ (run_pdffonts which run).2.1 = none := by
  cases which with
  | false => simp [run_pdffonts]
  | true =>
    cases run with
    | done rc out err =>
      have hrc := h rc out err rfl
      simp [run_pdffonts, hrc]
    | timeout => simp [run_pdffonts]
    | exc e => simp [run_pdffonts]

theorem run_verapdf_unknown (which : Bool) (run : Subp)
    (h : ∀ rc out err, run = .done rc out err →
        containsStr (lowerStr (out ++ '\n' :: err)) (str "fail") = false ∧
        containsStr (lowerStr (out ++ '\n' :: err)) (str "pass") = false) :
    (run_verapdf which run).2.1 = none := by
  cases which with
  | false => simp [run_verapdf]
  | true =>
    cases run with
    | done rc out err =>
      obtain ⟨hf, hp⟩ := h rc out err rfl
      simp [run_verapdf, hf, hp]
    | timeout => simp [run_verapdf]
    | exc e => simp [run_verapdf]

theorem veraStage_passed_none (w : World) (rv : Bool)
    (content : Option (List Nat)) (note : Option Str)
    (h : ∀ rc out err, w.verapdfRun content = .done rc out err →
        containsStr (lowerStr (out ++ '\n' :: err)) (str "fail") = false ∧
        containsStr (lowerStr (out ++ '\n' :: err)) (str "pass") = false) :
    (veraStage w rv content note).2.1 = none := by
  unfold veraStage
  cases rv with
  | false => rfl
  | true =>
    simp only [if_pos rfl]
    exact run_verapdf_unknown w.verapdfWhich (w.verapdfRun content) h

/-- C3, amended as the counterexample forces: when the transport stage
fails before the output file is even opened — a connection-stage
exception or an HTTP status of 400 or more — and no file pre-exists at
the derived path, and the tools behave as tools do on a missing file
(the font tool does not exit 0, the conformance tool's output carries
neither verdict token), then every downstream field is absent or
unknown. After a size-cap truncation, by contrast, the partial file
remains on disk and the downstream stages run on it (the
counterexample), so truncation cannot be included. -/
theorem claim_C3_amended (w : World) (mb : Nat) (od : Str) (rv pt : Bool)
    (pg lk : Str) (fb : FSb) (ft : FSt)
    (hdl : ∀ status ct stream, w.download lk = .resp status ct stream → 400 ≤ status)
    (hfs : fsGet fb (od ++ str "/pdfs/" ++ safe_filename_from_url lk) = none)
    (hpf : ∀ rc out err, w.pdffontsRun none = .done rc out err → rc ≠ 0)
    (hvp : ∀ rc out err, w.verapdfRun none = .done rc out err →
        containsStr (lowerStr (out ++ '\n' :: err)) (str "fail") = false ∧
        containsStr (lowerStr (out ++ '\n' :: err)) (str "pass") = false) :
    (pdfRecord w mb od rv pt false pg lk fb ft).1.sha256 = none
    ∧ (pdfRecord w mb od rv pt false pg lk fb ft).1.has_text_layer = none
    ∧ (pdfRecord w mb od rv pt false pg lk fb ft).1.fonts_count = none
    ∧ (pdfRecord w mb od rv pt false pg lk fb ft).1.pdftotext_ran = false
    ∧ (pdfRecord w mb od rv pt false pg lk fb ft).1.pdftotext_ok = none
    ∧ (pdfRecord w mb od rv pt false pg lk fb ft).1.pdftotext_output = none
    ∧ (pdfRecord w mb od rv pt false pg lk fb ft).1.pdftotext_bytes = none
    ∧ (pdfRecord w mb od rv pt false pg lk fb ft).1.pdftotext_chars = none
    ∧ (pdfRecord w mb od rv pt false pg lk fb ft).1.text_density = none
    ∧ (pdfRecord w mb od rv pt false pg lk fb ft).1.verapdf_passed = none := by
  have hfb : (download_pdf (w.download lk) mb fb
      (od ++ str "/pdfs/" ++ safe_filename_from_url lk)).1 = fb := by
    cases hr : w.download lk with
    | exc m => simp [download_pdf]
    | resp status ct stream =>
      have h4 := hdl status ct stream hr
      simp [download_pdf, if_pos h4]
  have hsha : (dlDisamb (download_pdf (w.download lk) mb fb
      (od ++ str "/pdfs/" ++ safe_filename_from_url lk)).2).1 = none := by
    cases hr : w.download lk with
    | exc m => simp [download_pdf, dlDisamb]
    | resp status ct stream =>
      have h4 := hdl status ct stream hr
      simp [download_pdf, if_pos h4, dlDisamb, noteHTTP_not_hex]
  simp only [pdfRecord, Bool.false_eq_true, if_false]
  rw [hfb, hfs, hsha]
  obtain ⟨hpf1, hpf2⟩ := run_pdffonts_fail_none w.pdffontsWhich
    (w.pdffontsRun none) hpf
  rw [hpf1, hpf2]
  rw [extStage_not_ran _ _ _ _ _ _ _
    (by simp [truthyOptBool])]
  rw [densityStage_none_of_okv_none]
  have hvps := veraStage_passed_none w rv none
    (noteAppendIf (dlDisamb (download_pdf (w.download lk) mb fb
      (od ++ str "/pdfs/" ++ safe_filename_from_url lk)).2).2
      (run_pdffonts w.pdffontsWhich (w.pdffontsRun none)).2.2) hvp
  rw [hvps]
  exact ⟨rfl, rfl, rfl, rfl, rfl, rfl, rfl, rfl, rfl, rfl⟩

/-- Witness for the amended C3: a 404 download with no pre-existing
file leaves the text-layer verdict unknown. -/
theorem claim_C3_amended_witness :
    (pdfRecord worldMissing 10 (str "o") true true false (str "p")
      (str "http://a/d.pdf") [] []).1.has_text_layer = none := by
  have h := claim_C3_amended worldMissing 10 (str "o") true true (str "p")
    (str "http://a/d.pdf") [] []
    (by
      intro status ct stream h
      simp only [worldMissing] at h
      obtain ⟨h1, -, -⟩ := DlResp.resp.injEq .. ▸ h
      omega)
    rfl
    (by
      intro rc out err h
      simp only [worldMissing] at h
      obtain ⟨h1, -, -⟩ := Subp.done.injEq .. ▸ h
      omega)
    (by
      intro rc out err h
      simp only [worldMissing] at h
      obtain ⟨-, h2, h3⟩ := Subp.done.injEq .. ▸ h
      subst h2
      subst h3
      exact ⟨by decide, by decide⟩)
  exact h.2.1

/-! ## Link-loop lemmas and claim C9 -/

theorem pdfRecord_url (w : World) (mb : Nat) (od : Str) (rv pt dr : Bool)
    (pg lk : Str) (fb : FSb) (ft : FSt) :
    (pdfRecord w mb od rv pt dr pg lk fb ft).1.pdf_url = lk := by
  unfold pdfRecord
  split <;> rfl

theorem linkPdfStep_queue (w : World) (mb : Nat) (od : Str) (rv pt dr : Bool)
    (pg lk : Str) (st : CrawlSt) :
    (linkPdfStep w mb od rv pt dr pg lk st).queue = st.queue := by
  unfold linkPdfStep
  split <;> rfl

theorem linkPdfStep_seen (w : World) (mb : Nat) (od : Str) (rv pt dr : Bool)
    (pg lk : Str) (st : CrawlSt) :
    (linkPdfStep w mb od rv pt dr pg lk st).seen_pages = st.seen_pages := by
  unfold linkPdfStep
  split <;> rfl

theorem linkPdfStep_results (w : World) (mb : Nat) (od : Str) (rv pt dr : Bool)
    (pg lk : Str) (st : CrawlSt) :
    (linkPdfStep w mb od rv pt dr pg lk st).results.map (fun r => r.pdf_url)
      = st.results.map (fun r => r.pdf_url)
        ++ (if is_probably_pdf lk then [lk] else []) := by
  unfold linkPdfStep
  by_cases hp : is_probably_pdf lk = true
  · rw [if_pos hp, if_pos hp]
    simp [pdfRecord_url]
  · rw [if_neg hp, if_neg hp]
    simp

theorem maybeEnqueue_queue (lk : Str) (so : Bool) (st : CrawlSt) :
    (maybeEnqueue lk so st).queue
      = st.queue ++ (if so && !(decide (lk ∈ st.seen_pages)) && !is_probably_pdf lk
          then [lk] else []) := by
  unfold maybeEnqueue
  by_cases h1 : (so && !(decide (lk ∈ st.seen_pages))) = true
  · rw [if_pos h1]
    by_cases h2 : is_probably_pdf lk = true
    · rw [if_neg (by simp [h2])]
      rw [if_neg (by rw [Bool.and_eq_true]; rintro ⟨-, hc⟩; simp [h2] at hc)]
      simp
    · rw [Bool.not_eq_true] at h2
      rw [if_pos (by simp [h2]), if_pos (by rw [Bool.and_eq_true]; exact ⟨h1, by simp [h2]⟩)]
  · rw [if_neg h1, if_neg (by rw [Bool.and_eq_true]; exact fun hc => h1 hc.1)]
    simp

theorem maybeEnqueue_seen (lk : Str) (so : Bool) (st : CrawlSt) :
    (maybeEnqueue lk so st).seen_pages = st.seen_pages := by
  unfold maybeEnqueue
  split
  · split <;> rfl
  · rfl

theorem maybeEnqueue_results (lk : Str) (so : Bool) (st : CrawlSt) :
    (maybeEnqueue lk so st).results = st.results := by
  unfold maybeEnqueue
  split
  · split <;> rfl
  · rfl

theorem processLinks_spec (w : World) (su : Str) (rec : Bool) (mb : Nat)
    (od : Str) (rv pt dr : Bool) (pg : Str) :
    ∀ (links : List Str) (st st' : CrawlSt),
      processLinks w su rec mb od rv pt dr pg links st = .ok st' →
      st'.queue = st.queue ++ links.filter (enqCond su rec st.seen_pages)
      ∧ st'.results.map (fun r => r.pdf_url)
          = st.results.map (fun r => r.pdf_url) ++ links.filter is_probably_pdf
      ∧ st'.seen_pages = st.seen_pages := by
  intro links
  induction links with
  | nil =>
    intro st st' h
    simp only [processLinks, Except.ok.injEq] at h
    subst h
    simp
  | cons l rest ih =>
    intro st st' h
    simp only [processLinks] at h
    by_cases hrec : rec = true
    · rw [if_pos hrec] at h
      cases hso : same_originE su l with
      | error e =>
        rw [hso] at h
        exact absurd h (by simp)
      | ok so =>
        rw [hso] at h
        obtain ⟨hq, hr, hs⟩ := ih _ st' h
        have hsai : sameOriginB su l = so := by simp [sameOriginB, hso]
        refine ⟨?_, ?_, ?_⟩
        · rw [hq, maybeEnqueue_queue, linkPdfStep_queue]
          rw [maybeEnqueue_seen, linkPdfStep_seen]
          rw [List.filter_cons]
          rw [List.append_assoc]
          congr 1
          unfold enqCond
          rw [hrec, hsai]
          simp only [Bool.true_and]
          by_cases hc : (so && !(decide (l ∈ st.seen_pages)) && !is_probably_pdf l) = true
          · rw [if_pos hc, if_pos hc]
            rfl
          · rw [if_neg hc, if_neg hc]
            simp
        · rw [hr, maybeEnqueue_results, linkPdfStep_results]
          rw [List.filter_cons, List.append_assoc]
          congr 1
          by_cases hp : is_probably_pdf l = true
          · rw [if_pos hp, if_pos hp]
            rfl
          · rw [if_neg hp, if_neg hp]
            simp
        · rw [hs, maybeEnqueue_seen, linkPdfStep_seen]
    · rw [if_neg hrec] at h
      rw [Bool.not_eq_true] at hrec
      obtain ⟨hq, hr, hs⟩ := ih _ st' h
      refine ⟨?_, ?_, ?_⟩
      · rw [hq, linkPdfStep_queue, linkPdfStep_seen]
        rw [List.filter_cons]
        have hc : enqCond su rec st.seen_pages l = false := by
          unfold enqCond
          rw [hrec]
          simp
        rw [if_neg (by simp [hc])]
      · rw [hr, linkPdfStep_results]
        rw [List.filter_cons, List.append_assoc]
        congr 1
        by_cases hp : is_probably_pdf l = true
        · rw [if_pos hp, if_pos hp]
          rfl
        · rw [if_neg hp, if_neg hp]
          simp
      · rw [hs, linkPdfStep_seen]

/-- C9: when the link loop returns without raising, the frontier grew by
exactly the links that pass the enqueue condition — recursion enabled,
same scheme and host (with port) as the start URL, not already in the
visited-pages set, not PDF-shaped; hence a link to a different scheme or
host (or any link with recursion off) is never enqueued, while every
PDF-shaped link, off-origin ones included, still contributes a record. -/
theorem claim_C9_enqueue_conditions (w : World) (su : Str) (rec : Bool)
    (mb : Nat) (od : Str) (rv pt dr : Bool) (pg : Str)
    (links : List Str) (st st' : CrawlSt)
    (h : processLinks w su rec mb od rv pt dr pg links st = .ok st') :
    st'.queue = st.queue ++ links.filter (enqCond su rec st.seen_pages)
    ∧ (∀ l, l ∈ st'.queue → l ∈ st.queue ∨
        (rec = true ∧ sameOriginB su l = true ∧ l ∉ st.seen_pages ∧
         is_probably_pdf l = false))
    ∧ st'.results.map (fun r => r.pdf_url)
        = st.results.map (fun r => r.pdf_url) ++ links.filter is_probably_pdf := by
  obtain ⟨hq, hr, hs⟩ := processLinks_spec w su rec mb od rv pt dr pg links st st' h
  refine ⟨hq, ?_, hr⟩
  intro l hl
  rw [hq, List.mem_append] at hl
  rcases hl with hl | hl
  · exact Or.inl hl
  · right
    rw [List.mem_filter] at hl
    have hc := hl.2
    unfold enqCond at hc
    simp only [Bool.and_eq_true, Bool.not_eq_true'] at hc
    refine ⟨hc.1.1.1, hc.1.1.2, ?_, hc.2⟩
    have hm := hc.1.2
    simpa using hm

/-- Witness for C9 on a concrete link list: the same-origin non-PDF link
is enqueued; the off-origin PDF-shaped link is not enqueued but is
recorded. -/
theorem claim_C9_enqueue_conditions_witness :
    (okCrawlSt (processLinks worldDry (str "http://a/") true 100 (str "o")
      false false true (str "p") [str "http://a/p", str "http://b/x.pdf"]
      ⟨[], [], [], [], [], []⟩)).queue = [str "http://a/p"]
    ∧ (okCrawlSt (processLinks worldDry (str "http://a/") true 100 (str "o")
      false false true (str "p") [str "http://a/p", str "http://b/x.pdf"]
      ⟨[], [], [], [], [], []⟩)).results.map (fun r => r.pdf_url)
      = [str "http://b/x.pdf"] := by
  have h := claim_C9_enqueue_conditions worldDry (str "http://a/") true 100
    (str "o") false false true (str "p")
    [str "http://a/p", str "http://b/x.pdf"] ⟨[], [], [], [], [], []⟩
    (okCrawlSt (processLinks worldDry (str "http://a/") true 100 (str "o")
      false false true (str "p") [str "http://a/p", str "http://b/x.pdf"]
      ⟨[], [], [], [], [], []⟩))
    (by rfl)
  constructor
  · rw [h.1]
    decide
  · rw [h.2.2]
    decide

/-! ## URL lemmas for claim C8 -/

theorem pyLower_mem_schemeChars : ∀ c ∈ schemeChars, pyLower c ∈ schemeChars := by
  decide

theorem hash_not_mem_schemeChars : ('#' : Char) ∉ schemeChars := by decide

theorem colon_not_mem_schemeChars : (':' : Char) ∉ schemeChars := by decide

theorem pyLower_alpha_schemeChars :
    ∀ c ∈ schemeChars, isAsciiAlpha (pyLower c) = isAsciiAlpha c := by decide

theorem splitLast_append (c : Char) (s a b : Str) (h : splitLast c s = some (a, b)) :
    s = a ++ c :: b ∧ c ∉ b := by
  unfold splitLast at h
  cases hsf : splitFirst c s.reverse with
  | none => rw [hsf] at h; exact absurd h (by simp)
  | some p =>
    obtain ⟨a0, b0⟩ := p
    rw [hsf] at h
    obtain ⟨ha, hb⟩ := Prod.mk.injEq .. ▸ Option.some.inj h
    obtain ⟨hs, hmem⟩ := splitFirst_append c s.reverse a0 b0 hsf
    subst ha; subst hb
    constructor
    · have h2 := congrArg List.reverse hs
      simp only [List.reverse_reverse, List.reverse_append, List.reverse_cons] at h2
      rw [h2]
      simp [List.append_assoc]
    · simpa using hmem

theorem splitFirst_of_not_mem (c : Char) (b : Str) :
    ∀ (a : Str), c ∉ a → splitFirst c (a ++ c :: b) = some (a, b) := by
  intro a
  induction a with
  | nil => intro _; simp [splitFirst]
  | cons x xs ih =>
    intro h
    have hxc : ¬ x = c := fun he => h (by simp [he])
    rw [List.cons_append, splitFirst, if_neg hxc,
      ih (fun hm => h (by simp [hm]))]

theorem lowerStr_no_hash (s : Str) (h : ∀ c ∈ s, c ∈ schemeChars) :
    '#' ∉ lowerStr s := by
  intro hmem
  rw [lowerStr, List.mem_map] at hmem
  obtain ⟨c, hc, hlc⟩ := hmem
  have hm := pyLower_mem_schemeChars c (h c hc)
  rw [hlc] at hm
  exact hash_not_mem_schemeChars hm

theorem schemeSplit_of_splitFirst (u after : Str) (c0 : Char) (bs : Str)
    (hsf : splitFirst ':' u = some (c0 :: bs, after)) :
    schemeSplit u
      = if isAsciiAlpha c0 && (c0 :: bs).all (fun c => decide (c ∈ schemeChars))
        then some (lowerStr (c0 :: bs), after) else none := by
  unfold schemeSplit
  rw [hsf]

theorem schemeSplit_chars (u s r : Str) (h : schemeSplit u = some (s, r)) :
    ∃ before, s = lowerStr before ∧ before ≠ [] ∧
      isAsciiAlpha (before.headD 'a') = true ∧ ∀ c ∈ before, c ∈ schemeChars := by
  unfold schemeSplit at h
  split at h
  · exact absurd h (by simp)
  · rename_i before after
    split at h
    · exact absurd h (by simp)
    · rename_i c0 bs
      split at h
      · rename_i hcond
        obtain ⟨hs, -⟩ := Prod.mk.injEq .. ▸ Option.some.inj h
        rw [Bool.and_eq_true, List.all_eq_true] at hcond
        refine ⟨c0 :: bs, hs.symm, by simp, ?_, ?_⟩
        · simpa using hcond.1
        · intro c hc
          simpa using hcond.2 c hc
      · exact absurd h (by simp)

theorem schemeSplit_no_hash (u s r : Str) (h : schemeSplit u = some (s, r)) :
    '#' ∉ s := by
  obtain ⟨before, rfl, -, -, hmem⟩ := schemeSplit_chars u s r h
  exact lowerStr_no_hash before hmem

theorem schemeSplit_valid (u s r : Str) (h : schemeSplit u = some (s, r)) :
    validScheme s := by
  obtain ⟨before, rfl, hne, halpha, hmem⟩ := schemeSplit_chars u s r h
  cases before with
  | nil => exact absurd rfl hne
  | cons c0 bs =>
    simp only [lowerStr, List.map_cons, validScheme]
    constructor
    · rw [pyLower_alpha_schemeChars c0 (hmem c0 (by simp))]
      simpa using halpha
    · intro c hc
      rcases List.mem_cons.mp hc with he | hm
      · subst he
        exact pyLower_mem_schemeChars c0 (hmem c0 (by simp))
      · rw [List.mem_map] at hm
        obtain ⟨c', hc', rfl⟩ := hm
        exact pyLower_mem_schemeChars c' (hmem c' (by simp [hc']))

theorem validScheme_ne_nil (s : Str) (h : validScheme s) : s ≠ [] := by
  cases s with
  | nil => exact absurd h (by simp [validScheme])
  | cons c0 bs => simp

theorem hasScheme_prepend (s r : Str) (h : validScheme s) :
    hasScheme (s ++ ':' :: r) = true := by
  cases s with
  | nil => exact absurd h (by simp [validScheme])
  | cons c0 bs =>
    obtain ⟨halpha, hmemall⟩ := h
    have hnc : ':' ∉ (c0 :: bs : Str) := fun hc =>
      colon_not_mem_schemeChars (hmemall _ hc)
    have he := schemeSplit_of_splitFirst ((c0 :: bs) ++ ':' :: r) r c0 bs
      (splitFirst_of_not_mem ':' r (c0 :: bs) hnc)
    unfold hasScheme
    rw [he, if_pos (by
      rw [Bool.and_eq_true, List.all_eq_true]
      exact ⟨halpha, fun c hc => by simpa using hmemall c hc⟩)]
    rfl

theorem splitFragment_pos (rest a b : Str) (h : splitFirst '#' rest = some (a, b)) :
    splitFragment rest = (a, b) := by
  unfold splitFragment
  rw [h]

theorem splitFragment_neg (rest : Str) (h : splitFirst '#' rest = none) :
    splitFragment rest = (rest, []) := by
  unfold splitFragment
  rw [h]

theorem splitQuery_pos (s a b : Str) (h : splitFirst '?' s = some (a, b)) :
    splitQuery s = (a, b) := by
  unfold splitQuery
  rw [h]

theorem splitQuery_neg (s : Str) (h : splitFirst '?' s = none) :
    splitQuery s = (s, []) := by
  unfold splitQuery
  rw [h]

theorem schemeOrDefault_pos (url dflt s r : Str) (h : schemeSplit url = some (s, r)) :
    schemeOrDefault url dflt = (s, r) := by
  unfold schemeOrDefault
  rw [h]

theorem schemeOrDefault_neg (url dflt : Str) (h : schemeSplit url = none) :
    schemeOrDefault url dflt = (dflt, url) := by
  unfold schemeOrDefault
  rw [h]

theorem splitFragment_no_hash (rest : Str) : '#' ∉ (splitFragment rest).1 := by
  cases hf : splitFirst '#' rest with
  | some p =>
    obtain ⟨a, b⟩ := p
    rw [splitFragment_pos rest a b hf]
    exact (splitFirst_append '#' rest a b hf).2
  | none =>
    rw [splitFragment_neg rest hf]
    exact splitFirst_none '#' rest hf

theorem splitQuery_no_hash (s : Str) (h : '#' ∉ s) :
    '#' ∉ (splitQuery s).1 ∧ '#' ∉ (splitQuery s).2 := by
  cases hq : splitFirst '?' s with
  | some p =>
    obtain ⟨a, b⟩ := p
    rw [splitQuery_pos s a b hq]
    obtain ⟨hs, -⟩ := splitFirst_append '?' s a b hq
    subst hs
    constructor
    · exact fun hm => h (by simp [hm])
    · exact fun hm => h (by simp [hm])
  | none =>
    rw [splitQuery_neg s hq]
    exact ⟨h, List.not_mem_nil '#'⟩

theorem urlsplitRest_no_hash (scheme netloc rest : Str) :
    '#' ∉ (urlsplitRest scheme netloc rest).path
    ∧ '#' ∉ (urlsplitRest scheme netloc rest).query := by
  unfold urlsplitRest
  exact splitQuery_no_hash (splitFragment rest).1 (splitFragment_no_hash rest)

theorem splitNetloc_no_hash (s : Str) : '#' ∉ (splitNetloc s).1 := by
  intro hm
  unfold splitNetloc at hm
  have := List.mem_takeWhile_imp hm
  simp at this

theorem urlsplitE_ok_no_hash (u dflt : Str) (r : SplitRes)
    (hd : '#' ∉ dflt) (h : urlsplitE u dflt = .ok r) :
    '#' ∉ r.scheme ∧ '#' ∉ r.netloc ∧ '#' ∉ r.path ∧ '#' ∉ r.query := by
  have hscheme : '#' ∉ (schemeOrDefault u dflt).1 := by
    cases hss : schemeSplit u with
    | some p =>
      obtain ⟨s, rest⟩ := p
      rw [schemeOrDefault_pos u dflt s rest hss]
      exact schemeSplit_no_hash u s rest hss
    | none =>
      rw [schemeOrDefault_neg u dflt hss]
      exact hd
  unfold urlsplitE at h
  by_cases h2 : (schemeOrDefault u dflt).2.take 2 = str "//"
  · rw [if_pos h2] at h
    by_cases hbr :
        ('[' ∈ (splitNetloc ((schemeOrDefault u dflt).2.drop 2)).1 ∧
          ']' ∉ (splitNetloc ((schemeOrDefault u dflt).2.drop 2)).1) ∨
        (']' ∈ (splitNetloc ((schemeOrDefault u dflt).2.drop 2)).1 ∧
          '[' ∉ (splitNetloc ((schemeOrDefault u dflt).2.drop 2)).1)
    · rw [if_pos hbr] at h
      exact absurd h (by simp)
    · rw [if_neg hbr] at h
      have hr := Except.ok.inj h
      subst hr
      exact ⟨hscheme, splitNetloc_no_hash _,
        (urlsplitRest_no_hash _ _ _).1, (urlsplitRest_no_hash _ _ _).2⟩
  · rw [if_neg h2] at h
    have hr := Except.ok.inj h
    subst hr
    exact ⟨hscheme, List.not_mem_nil '#', (urlsplitRest_no_hash _ _ _).1,
      (urlsplitRest_no_hash _ _ _).2⟩

theorem splitparams_pos_pos (p pre post a b : Str)
    (hl : splitLast '/' p = some (pre, post))
    (hf : splitFirst ';' post = some (a, b)) :
    splitparams p = (pre ++ '/' :: a, b) := by
  unfold splitparams
  rw [hl]
  show (match splitFirst ';' post with
    | some (a, b) => (pre ++ '/' :: a, b)
    | none => (p, [])) = (pre ++ '/' :: a, b)
  rw [hf]

theorem splitparams_pos_neg (p pre post : Str)
    (hl : splitLast '/' p = some (pre, post))
    (hf : splitFirst ';' post = none) :
    splitparams p = (p, []) := by
  unfold splitparams
  rw [hl]
  show (match splitFirst ';' post with
    | some (a, b) => (pre ++ '/' :: a, b)
    | none => (p, [])) = (p, [])
  rw [hf]

theorem splitparams_neg_pos (p a b : Str)
    (hl : splitLast '/' p = none)
    (hf : splitFirst ';' p = some (a, b)) :
    splitparams p = (a, b) := by
  unfold splitparams
  rw [hl]
  show (match splitFirst ';' p with
    | some (a, b) => (a, b)
    | none => (p, [])) = (a, b)
  rw [hf]

theorem splitparams_neg_neg (p : Str)
    (hl : splitLast '/' p = none)
    (hf : splitFirst ';' p = none) :
    splitparams p = (p, []) := by
  unfold splitparams
  rw [hl]
  show (match splitFirst ';' p with
    | some (a, b) => (a, b)
    | none => (p, [])) = (p, [])
  rw [hf]

theorem splitparams_no_hash (p : Str) (h : '#' ∉ p) :
    '#' ∉ (splitparams p).1 ∧ '#' ∉ (splitparams p).2 := by
  cases hl : splitLast '/' p with
  | some pr =>
    obtain ⟨pre, post⟩ := pr
    obtain ⟨hp, -⟩ := splitLast_append '/' p pre post hl
    cases hf : splitFirst ';' post with
    | some ab =>
      obtain ⟨a, b⟩ := ab
      obtain ⟨hpost, -⟩ := splitFirst_append ';' post a b hf
      rw [splitparams_pos_pos p pre post a b hl hf]
      constructor
      · intro hm
        rcases List.mem_append.mp hm with hm | hm
        · exact h (by simp [hp, hm])
        · rcases List.mem_cons.mp hm with he | hm'
          · exact absurd he (by decide)
          · exact h (by simp [hp, hpost, hm'])
      · intro hm
        exact h (by simp [hp, hpost, hm])
    | none =>
      rw [splitparams_pos_neg p pre post hl hf]
      exact ⟨h, List.not_mem_nil '#'⟩
  | none =>
    cases hf : splitFirst ';' p with
    | some ab =>
      obtain ⟨a, b⟩ := ab
      obtain ⟨hp2, -⟩ := splitFirst_append ';' p a b hf
      rw [splitparams_neg_pos p a b hl hf]
      constructor
      · intro hm
        exact h (by simp [hp2, hm])
      · intro hm
        exact h (by simp [hp2, hm])
    | none =>
      rw [splitparams_neg_neg p hl hf]
      exact ⟨h, List.not_mem_nil '#'⟩

theorem urlparseE_ok_eq (u dflt : Str) (r : SplitRes)
    (h : urlsplitE u dflt = .ok r) :
    urlparseE u dflt = .ok ⟨r.scheme, r.netloc,
      (if ';' ∈ r.path then splitparams r.path else (r.path, [])).1,
      (if ';' ∈ r.path then splitparams r.path else (r.path, [])).2,
      r.query, r.fragment⟩ := by
  unfold urlparseE
  rw [h]

theorem urlparseE_error_eq (u dflt e : Str)
    (h : urlsplitE u dflt = .error e) :
    urlparseE u dflt = .error e := by
  unfold urlparseE
  rw [h]

theorem urlparseE_ok_no_hash (u dflt : Str) (p : ParseRes)
    (hd : '#' ∉ dflt) (h : urlparseE u dflt = .ok p) :
    '#' ∉ p.scheme ∧ '#' ∉ p.netloc ∧ '#' ∉ p.path ∧ '#' ∉ p.params
    ∧ '#' ∉ p.query := by
  cases hsp : urlsplitE u dflt with
  | error e =>
    rw [urlparseE_error_eq u dflt e hsp] at h
    exact absurd h (by simp)
  | ok r =>
    rw [urlparseE_ok_eq u dflt r hsp] at h
    have hp := Except.ok.inj h
    obtain ⟨hsch, hnet, hpath, hquery⟩ := urlsplitE_ok_no_hash u dflt r hd hsp
    subst hp
    by_cases hsc : ';' ∈ r.path
    · simp only [if_pos hsc]
      obtain ⟨h1, h2⟩ := splitparams_no_hash r.path hpath
      exact ⟨hsch, hnet, h1, h2, hquery⟩
    · simp only [if_neg hsc]
      exact ⟨hsch, hnet, hpath, List.not_mem_nil '#', hquery⟩

theorem hasScheme_prepend_append (s u x : Str) (h : validScheme s) :
    hasScheme ((s ++ ':' :: u) ++ x) = true := by
  rw [List.append_assoc, List.cons_append]
  exact hasScheme_prepend s _ h

theorem urlunsplit_hasScheme (s n pth q f : Str) (h : validScheme s) :
    hasScheme (urlunsplit s n pth q f) = true := by
  have hs := validScheme_ne_nil s h
  simp only [urlunsplit]
  rw [if_pos hs]
  by_cases hf : f = []
  · rw [if_neg (by simp [hf])]
    by_cases hq : q = []
    · rw [if_neg (by simp [hq])]
      exact hasScheme_prepend s _ h
    · rw [if_pos hq]
      exact hasScheme_prepend_append s _ _ h
  · rw [if_pos hf]
    by_cases hq : q = []
    · rw [if_neg (by simp [hq])]
      exact hasScheme_prepend_append s _ _ h
    · rw [if_pos hq, List.append_assoc]
      exact hasScheme_prepend_append s _ _ h

theorem urlunparse_hasScheme (r : ParseRes) (h : validScheme r.scheme) :
    hasScheme (urlunparse r) = true := by
  unfold urlunparse
  exact urlunsplit_hasScheme _ _ _ _ _ h

theorem not_mem_append_chr {x : Char} {a b : Str} (ha : x ∉ a) (hb : x ∉ b) :
    x ∉ a ++ b :=
  fun hm => (List.mem_append.mp hm).elim ha hb

theorem not_mem_cons_chr {x c : Char} {b : Str} (hc : ¬ x = c) (hb : x ∉ b) :
    x ∉ c :: b :=
  fun hm => (List.mem_cons.mp hm).elim hc hb

theorem not_mem_ite_chr {c : Prop} [Decidable c] {x : Char} {a b : Str}
    (ha : x ∉ a) (hb : x ∉ b) : x ∉ (if c then a else b) := by
  split
  · exact ha
  · exact hb

theorem urlunsplit_no_hash (s n pth q : Str)
    (hs : '#' ∉ s) (hn : '#' ∉ n) (hp : '#' ∉ pth) (hq : '#' ∉ q) :
    '#' ∉ urlunsplit s n pth q [] := by
  simp only [urlunsplit]
  rw [if_neg (by simp)]
  have hW : '#' ∉ (if pth ≠ [] ∧ pth.take 1 ≠ str "/" then '/' :: pth else pth) :=
    not_mem_ite_chr (not_mem_cons_chr (by decide) hp) hp
  have hV : '#' ∉ (if n ≠ [] ∨ (s ≠ [] ∧ s ∈ usesNetloc ∧ pth.take 2 ≠ str "//") then
      str "//" ++ n ++ (if pth ≠ [] ∧ pth.take 1 ≠ str "/" then '/' :: pth else pth)
      else pth) :=
    not_mem_ite_chr (not_mem_append_chr (not_mem_append_chr (by decide) hn) hW) hp
  have hU : '#' ∉ (if s ≠ [] then
      s ++ ':' :: (if n ≠ [] ∨ (s ≠ [] ∧ s ∈ usesNetloc ∧ pth.take 2 ≠ str "//") then
        str "//" ++ n ++ (if pth ≠ [] ∧ pth.take 1 ≠ str "/" then '/' :: pth else pth)
        else pth)
      else (if n ≠ [] ∨ (s ≠ [] ∧ s ∈ usesNetloc ∧ pth.take 2 ≠ str "//") then
        str "//" ++ n ++ (if pth ≠ [] ∧ pth.take 1 ≠ str "/" then '/' :: pth else pth)
        else pth)) :=
    not_mem_ite_chr (not_mem_append_chr hs (not_mem_cons_chr (by decide) hV)) hV
  exact not_mem_ite_chr (not_mem_append_chr hU (not_mem_cons_chr (by decide) hq)) hU

theorem urlunparse_no_hash (r : ParseRes)
    (hs : '#' ∉ r.scheme) (hn : '#' ∉ r.netloc) (hp : '#' ∉ r.path)
    (hprm : '#' ∉ r.params) (hq : '#' ∉ r.query) (hf : r.fragment = []) :
    '#' ∉ urlunparse r := by
  unfold urlunparse
  rw [hf]
  apply urlunsplit_no_hash _ _ _ _ hs hn _ hq
  by_cases hpr : r.params = []
  · rw [if_neg (by simp [hpr])]
    exact hp
  · rw [if_pos hpr]
    intro hm
    rcases List.mem_append.mp hm with hm | hm
    · exact hp hm
    · rcases List.mem_cons.mp hm with he | hm'
      · exact absurd he (by decide)
      · exact hprm hm'

theorem urldefragE_hash_ok (u : Str) (hm : '#' ∈ u) (p : ParseRes)
    (hp : urlparseE u [] = .ok p) :
    urldefragE u
      = .ok (urlunparse ⟨p.scheme, p.netloc, p.path, p.params, p.query, []⟩) := by
  unfold urldefragE
  rw [if_pos hm, hp]

theorem urldefragE_hash_error (u : Str) (hm : '#' ∈ u) (e : Str)
    (hp : urlparseE u [] = .error e) : urldefragE u = .error e := by
  unfold urldefragE
  rw [if_pos hm, hp]

theorem urldefragE_id (u : Str) (hm : '#' ∉ u) : urldefragE u = .ok u := by
  unfold urldefragE
  rw [if_neg hm]

theorem urldefragE_result_no_hash (u d : Str) (h : urldefragE u = .ok d) :
    '#' ∉ d := by
  by_cases hm : '#' ∈ u
  · cases hp : urlparseE u [] with
    | error e =>
      rw [urldefragE_hash_error u hm e hp] at h
      exact absurd h (by simp)
    | ok p =>
      rw [urldefragE_hash_ok u hm p hp] at h
      have hd := Except.ok.inj h
      subst hd
      obtain ⟨h1, h2, h3, h4, h5⟩ :=
        urlparseE_ok_no_hash u [] p (List.not_mem_nil '#') hp
      exact urlunparse_no_hash ⟨p.scheme, p.netloc, p.path, p.params, p.query, []⟩
        h1 h2 h3 h4 h5 rfl
  · rw [urldefragE_id u hm] at h
    have hd := Except.ok.inj h
    subst hd
    exact hm

theorem urlsplitE_scheme_eq (u dflt : Str) (r : SplitRes)
    (h : urlsplitE u dflt = .ok r) :
    r.scheme = (schemeOrDefault u dflt).1 := by
  unfold urlsplitE at h
  by_cases h2 : (schemeOrDefault u dflt).2.take 2 = str "//"
  · rw [if_pos h2] at h
    by_cases hbr :
        ('[' ∈ (splitNetloc ((schemeOrDefault u dflt).2.drop 2)).1 ∧
          ']' ∉ (splitNetloc ((schemeOrDefault u dflt).2.drop 2)).1) ∨
        (']' ∈ (splitNetloc ((schemeOrDefault u dflt).2.drop 2)).1 ∧
          '[' ∉ (splitNetloc ((schemeOrDefault u dflt).2.drop 2)).1)
    · rw [if_pos hbr] at h
      exact absurd h (by simp)
    · rw [if_neg hbr] at h
      have hr := Except.ok.inj h
      subst hr
      rfl
  · rw [if_neg h2] at h
    have hr := Except.ok.inj h
    subst hr
    rfl

theorem urlsplitE_scheme_cases (u dflt : Str) (r : SplitRes)
    (h : urlsplitE u dflt = .ok r) :
    (schemeSplit u = none ∧ r.scheme = dflt) ∨
    (∃ rest, schemeSplit u = some (r.scheme, rest)) := by
  have he := urlsplitE_scheme_eq u dflt r h
  cases hss : schemeSplit u with
  | none =>
    left
    exact ⟨rfl, by rw [he, schemeOrDefault_neg u dflt hss]⟩
  | some p =>
    obtain ⟨s0, rest⟩ := p
    right
    refine ⟨rest, ?_⟩
    rw [he, schemeOrDefault_pos u dflt s0 rest hss]

theorem urlparseE_scheme_eq (u dflt : Str) (p : ParseRes)
    (h : urlparseE u dflt = .ok p) :
    ∃ r, urlsplitE u dflt = .ok r ∧ p.scheme = r.scheme := by
  cases hsp : urlsplitE u dflt with
  | error e =>
    rw [urlparseE_error_eq u dflt e hsp] at h
    exact absurd h (by simp)
  | ok r =>
    rw [urlparseE_ok_eq u dflt r hsp] at h
    have hpp := Except.ok.inj h
    subst hpp
    exact ⟨r, rfl, rfl⟩

theorem urlparseE_validScheme (u : Str) (p : ParseRes)
    (h : urlparseE u [] = .ok p) (hne : p.scheme ≠ []) :
    validScheme p.scheme ∧ ∃ rest, schemeSplit u = some (p.scheme, rest) := by
  obtain ⟨r, hsp, hsc⟩ := urlparseE_scheme_eq u [] p h
  rcases urlsplitE_scheme_cases u [] r hsp with ⟨-, hdf⟩ | ⟨rest, hss⟩
  · exact absurd (hsc.trans hdf) hne
  · rw [hsc]
    exact ⟨schemeSplit_valid u r.scheme rest hss, rest, hss⟩

theorem urldefragE_preserves_hasScheme (u d : Str)
    (h : hasScheme u = true) (hd : urldefragE u = .ok d) :
    hasScheme d = true := by
  by_cases hm : '#' ∈ u
  · cases hp : urlparseE u [] with
    | error e =>
      rw [urldefragE_hash_error u hm e hp] at hd
      exact absurd hd (by simp)
    | ok p =>
      rw [urldefragE_hash_ok u hm p hp] at hd
      have hdd := Except.ok.inj hd
      subst hdd
      unfold hasScheme at h
      rw [Option.isSome_iff_exists] at h
      obtain ⟨⟨s0, rest0⟩, hss⟩ := h
      obtain ⟨r, hsp, hsc⟩ := urlparseE_scheme_eq u [] p hp
      rcases urlsplitE_scheme_cases u [] r hsp with ⟨hnone, -⟩ | ⟨rest2, hss2⟩
      · rw [hss] at hnone
        exact absurd hnone (by simp)
      · have hv := schemeSplit_valid u r.scheme rest2 hss2
        apply urlunparse_hasScheme
        show validScheme p.scheme
        rw [hsc]
        exact hv
  · rw [urldefragE_id u hm] at hd
    have hdd := Except.ok.inj hd
    subst hdd
    exact h

theorem normalize_url_nil (base : Str) : normalize_url base [] = .ok none := rfl

theorem normalize_url_join_error (base href e : Str) (h : ¬ href = [])
    (hj : urljoinE base href = .error e) : normalize_url base href = .error e := by
  unfold normalize_url
  rw [if_neg h, hj]

theorem normalize_url_defrag_error (base href u e : Str) (h : ¬ href = [])
    (hj : urljoinE base href = .ok u) (hd : urldefragE u = .error e) :
    normalize_url base href = .error e := by
  simp only [normalize_url, if_neg h, hj, hd]

theorem normalize_url_ok (base href u d : Str) (h : ¬ href = [])
    (hj : urljoinE base href = .ok u) (hd : urldefragE u = .ok d) :
    normalize_url base href = .ok (some d) := by
  simp only [normalize_url, if_neg h, hj, hd]

theorem urljoinE_reduce (base url : Str) (hb : ¬ base = []) (hu : ¬ url = [])
    (b : ParseRes) (hpb : urlparseE base [] = .ok b) :
    urljoinE base url = urljoinWith b url := by
  unfold urljoinE
  rw [if_neg hb, if_neg hu, hpb]

theorem urljoinWith_err (b : ParseRes) (url e : Str)
    (hpu : urlparseE url b.scheme = .error e) :
    urljoinWith b url = .error e := by
  unfold urljoinWith
  rw [hpu]

theorem urljoinWith_eq (b : ParseRes) (url : Str) (pu : ParseRes)
    (hpu : urlparseE url b.scheme = .ok pu) :
    urljoinWith b url =
      (if pu.scheme ≠ b.scheme ∨ pu.scheme ∉ usesRelative then .ok url
       else if pu.scheme ∈ usesNetloc ∧ pu.netloc ≠ [] then .ok (urlunparse pu)
       else if pu.path = [] ∧ pu.params = [] then
         .ok (urlunparse ⟨pu.scheme,
           (if pu.scheme ∈ usesNetloc then b.netloc else pu.netloc),
           b.path, b.params,
           (if pu.query = [] then b.query else pu.query), pu.fragment⟩)
       else
         .ok (urlunparse ⟨pu.scheme,
           (if pu.scheme ∈ usesNetloc then b.netloc else pu.netloc),
           joinMergedPath b.path pu.path, pu.params, pu.query, pu.fragment⟩)) := by
  unfold urljoinWith
  rw [hpu]

theorem urljoinE_hasScheme (base href : Str) (pb : ParseRes)
    (hb : urlparseE base [] = .ok pb) (hs : pb.scheme ≠ [])
    (hrel : pb.scheme ∈ usesRelative) (hh : ¬ href = [])
    (u0 : Str) (hj : urljoinE base href = .ok u0) :
    hasScheme u0 = true := by
  have hbne : ¬ base = [] := by
    intro hbe
    have hnil : urlparseE ([] : Str) [] = .ok (⟨[], [], [], [], [], []⟩ : ParseRes) := rfl
    rw [hbe, hnil] at hb
    have hpb := Except.ok.inj hb
    exact hs (by rw [← hpb])
  have hvb : validScheme pb.scheme := (urlparseE_validScheme base pb hb hs).1
  rw [urljoinE_reduce base href hbne hh pb hb] at hj
  cases hpu : urlparseE href pb.scheme with
  | error e =>
    rw [urljoinWith_err pb href e hpu] at hj
    exact absurd hj (by simp)
  | ok pu =>
    rw [urljoinWith_eq pb href pu hpu] at hj
    by_cases hbr1 : pu.scheme ≠ pb.scheme ∨ pu.scheme ∉ usesRelative
    · rw [if_pos hbr1] at hj
      have h0 := Except.ok.inj hj
      subst h0
      obtain ⟨r, hsp, hsc⟩ := urlparseE_scheme_eq href pb.scheme pu hpu
      rcases urlsplitE_scheme_cases href pb.scheme r hsp with ⟨hnone, hdf⟩ | ⟨rest2, hss2⟩
      · have hpp : pu.scheme = pb.scheme := hsc.trans hdf
        rcases hbr1 with hne | hnotrel
        · exact absurd hpp hne
        · rw [hpp] at hnotrel
          exact absurd hrel hnotrel
      · unfold hasScheme
        rw [hss2]
        rfl
    · have heq : pu.scheme = pb.scheme := by
        by_contra hne
        exact hbr1 (Or.inl hne)
      have hvu : validScheme pu.scheme := by
        rw [heq]
        exact hvb
      rw [if_neg hbr1] at hj
      by_cases hb2 : pu.scheme ∈ usesNetloc ∧ pu.netloc ≠ []
      · rw [if_pos hb2] at hj
        have h0 := Except.ok.inj hj
        rw [← h0]
        exact urlunparse_hasScheme pu hvu
      · rw [if_neg hb2] at hj
        by_cases hb3 : pu.path = [] ∧ pu.params = []
        · rw [if_pos hb3] at hj
          have h0 := Except.ok.inj hj
          rw [← h0]
          exact urlunparse_hasScheme _ hvu
        · rw [if_neg hb3] at hj
          have h0 := Except.ok.inj hj
          rw [← h0]
          exact urlunparse_hasScheme _ hvu

/-- Claim C8 (counterexample to the original wording): with the base
`foo://a/b` — a valid absolute URL, parsed by `urlparse` with scheme
`foo`, netloc `a`, path `/b` — the href `g` normalizes to the relative
URL `g` (no scheme), because `foo` is not in `uses_relative`; and the
unparseable href `http://[` does not give `None`: the `ValueError`
(Invalid IPv6 URL) raised inside `urlsplit` propagates out of
`normalize_url`. -/
theorem claim_C8_counterexample :
    normalize_url (str "foo://a/b") (str "g") = .ok (some (str "g")) ∧
    hasScheme (str "g") = false ∧
    urlparseE (str "foo://a/b") [] =
      .ok ⟨str "foo", str "a", str "/b", [], [], []⟩ ∧
    normalize_url (str "http://h/p") (str "http://[")
      = .error (str "Invalid IPv6 URL") :=
  ⟨rfl, rfl, rfl, rfl⟩

/-- Claim C8 (amended): `normalize_url` returns `.ok none` exactly when
`href` is empty — an unparseable `href` surfaces the `ValueError`
instead of giving `none` — and, when the base parses with a nonempty
scheme that is in `uses_relative`, every `.ok (some u)` result has no
`#` character (fragment stripped) and carries its own scheme, i.e. is
not relative. The scheme restriction on the base is necessary: see the
counterexample. -/
theorem claim_C8_amended (base href : Str) (pb : ParseRes)
    (hb : urlparseE base [] = .ok pb) (hs : pb.scheme ≠ [])
    (hrel : pb.scheme ∈ usesRelative) :
    (normalize_url base href = .ok none ↔ href = []) ∧
    (∀ u, normalize_url base href = .ok (some u) →
      '#' ∉ u ∧ hasScheme u = true) := by
  constructor
  · constructor
    · intro h
      by_cases hh : href = []
      · exact hh
      · exfalso
        cases hj : urljoinE base href with
        | error e =>
          rw [normalize_url_join_error base href e hh hj] at h
          exact absurd h (by simp)
        | ok u0 =>
          cases hd : urldefragE u0 with
          | error e =>
            rw [normalize_url_defrag_error base href u0 e hh hj hd] at h
            exact absurd h (by simp)
          | ok d =>
            rw [normalize_url_ok base href u0 d hh hj hd] at h
            simp at h
    · intro h
      rw [h]
      exact normalize_url_nil base
  · intro u h
    by_cases hh : href = []
    · rw [hh, normalize_url_nil base] at h
      exact absurd h (by simp)
    · cases hj : urljoinE base href with
      | error e =>
        rw [normalize_url_join_error base href e hh hj] at h
        exact absurd h (by simp)
      | ok u0 =>
        cases hd : urldefragE u0 with
        | error e =>
          rw [normalize_url_defrag_error base href u0 e hh hj hd] at h
          exact absurd h (by simp)
        | ok d =>
          rw [normalize_url_ok base href u0 d hh hj hd] at h
          have hdu : d = u := Option.some.inj (Except.ok.inj h)
          subst hdu
          refine ⟨urldefragE_result_no_hash u0 d hd, ?_⟩
          exact urldefragE_preserves_hasScheme u0 d
            (urljoinE_hasScheme base href pb hb hs hrel hh u0 hj) hd

/-- Witness for claim C8: the amended theorem applied at the concrete
base `http://h/p` and href `a#b`. -/
theorem claim_C8_amended_witness :
    (normalize_url (str "http://h/p") (str "a#b") = .ok none ↔
      str "a#b" = ([] : Str)) ∧
    (∀ u, normalize_url (str "http://h/p") (str "a#b") = .ok (some u) →
      '#' ∉ u ∧ hasScheme u = true) :=
  claim_C8_amended (str "http://h/p") (str "a#b")
    ⟨str "http", str "h", str "/p", [], [], []⟩ rfl (by decide) (by decide)
